import Mathlib

/-!
# Gomoku (n-in-a-row) game engine: embedding of `src/main.cpp`

The C++ program is embedded shallowly:

* `int` values are `Int`.  Every `int` the detector computes lies between `-1` and
  `settings_.size`, so 32-bit overflow never occurs and no reduction is needed.
* `size_t` values are `Nat`; the one `size_t` computation that can wrap
  (`numEmptyCells`) is reduced modulo `2^64` explicitly.
* `std::vector<std::vector<char>>` is `List (List Char)`.  `operator[]` is unchecked in
  C++; an index outside the vector is reported as `Fault.outOfBounds`.
* Functions that can throw, block or index out of range return `Except Fault _`.
* `while` loops carry a fuel argument; running out of it is `Fault.outOfFuel`.
* `void` functions that only talk to the terminal return the list of `Event`s they
  produce (calls of `init`, `makeGrid`, `move` and `finish`, in program order).
-/

namespace Gomoku

/-! ## Data model -/

/-- The enumeration `Result` of `main.cpp`. -/
inductive Result where
  | NOTHING
  | FIRST
  | SECOND
  | DRAW
  | ERROR
  deriving DecidableEq, Repr

/-- The ways a run can stop without returning normally. -/
inductive Fault where
  /-- An unchecked `operator[]` with an index outside the vector (undefined behaviour). -/
  | outOfBounds
  /-- The standard input holds no further coordinate pair: `std::cin >> i >> j` blocks. -/
  | noInput
  /-- The loop fuel of the model ran out. -/
  | outOfFuel
  /-- The exception `std::logic_error` thrown by `finish` on `NOTHING`. -/
  | logicError
  /-- The statement `throw;` with no active exception, in `finish` on `ERROR`. -/
  | terminate
  /-- The exception `std::range_error(what + std::to_string(value))` of `startGame`. -/
  | rangeError (what : String) (value : Int)
  /-- The exception `std::length_error` of a `std::vector` constructor. -/
  | lengthError
  deriving DecidableEq, Repr

deriving instance DecidableEq for Except

/-- The type `Grid = std::vector<std::vector<char>>`. -/
abbrev Grid := List (List Char)

/-- The constant `DEFAULT = '.'`. -/
def DEFAULT : Char := '.'
/-- The constant `FIRST = 'x'`. -/
def FIRST : Char := 'x'
/-- The constant `SECOND = 'o'`. -/
def SECOND : Char := 'o'

/-- The structure `Settings`. -/
structure Settings where
  size : Int := 3
  lineLen : Int := 3
  deriving DecidableEq, Repr

/-- The structure `Cell`. -/
structure Cell where
  i : Int := 0
  j : Int := 0
  deriving DecidableEq, Repr

/-- The data members of the class `Player`. -/
structure Player where
  mark_ : Char := '\x00'
  isFirst_ : Bool := true
  settings_ : Settings := {}
  deriving DecidableEq, Repr

/-- The expression `grid[i][j]` for `int` indices: `none` when an index is outside its
vector. -/
def cellAt (grid : Grid) (i j : Int) : Option Char :=
  if i < 0 ∨ j < 0 then none
  else
    match grid[i.toNat]? with
    | none => none
    | some row => row[j.toNat]?

/-- The function `makeGrid`: `Grid(size, std::vector<char>(size, '.'))`.  The `int` is
converted to `size_t`; a negative value becomes larger than `max_size()` and the vector
constructor throws. -/
def makeGrid (size : Int) : Except Fault Grid :=
  if size < 0 then .error .lengthError
  else .ok (List.replicate size.toNat (List.replicate size.toNat '.'))

/-! ## Win detection (`class Player`) -/

/-- The method `Player::okBorders`. -/
def Player.okBorders (self : Player) (cell : Cell) : Bool :=
  decide (cell.i ≥ 0) && decide (cell.i < self.settings_.size)
    && decide (cell.j ≥ 0) && decide (cell.j < self.settings_.size)

/-- The `while` loop of `Player::checkWinLine`, with the loop variables `start` and
`count` as arguments. -/
def Player.checkWinLineLoop (self : Player) (grid : Grid) (stepI stepJ : Int) :
    Nat → Cell → Int → Except Fault Bool
  | 0, _, _ => .error .outOfFuel
  | fuel + 1, start, count =>
    if self.okBorders start then
      match cellAt grid start.i start.j with
      | none => .error .outOfBounds
      | some cur =>
        let count := if cur = self.mark_ then count + 1 else 0
        if count ≥ self.settings_.lineLen then .ok true
        else self.checkWinLineLoop grid stepI stepJ fuel
          { i := start.i + stepI, j := start.j + stepJ } count
    else .ok false

/-- The method `Player::checkWinLine`.  The loop gets `size + 1` units of fuel: every
scan that `forEveryLine` starts leaves the board after at most `size` cells. -/
def Player.checkWinLine (self : Player) (grid : Grid) (start : Cell) (stepI stepJ : Int) :
    Except Fault Bool :=
  self.checkWinLineLoop grid stepI stepJ (self.settings_.size.toNat + 1) start 0

/-- The body of the `for` loop of `Player::forEveryLine` for one value of `pos`. -/
def Player.forEveryLineBody (self : Player) (grid : Grid) (pos : Int) : Except Fault Bool := do
  -- Row
  if ← self.checkWinLine grid { i := pos, j := 0 } 0 1 then return true
  -- Diagonal
  if ← self.checkWinLine grid { i := pos, j := 0 } 1 1 then return true
  -- Diagonal
  if ← self.checkWinLine grid { i := pos, j := 0 } 1 (-1) then return true
  -- Col
  if ← self.checkWinLine grid { i := 0, j := pos } 1 0 then return true
  -- Diagonal
  if ← self.checkWinLine grid { i := 0, j := pos } 1 1 then return true
  -- Diagonal
  if ← self.checkWinLine grid { i := 0, j := pos } 1 (-1) then return true
  return false

/-- The `for` loop of `Player::forEveryLine`: `n` iterations remain and the next value of
`pos` is `size - n`. -/
def Player.forEveryLineLoop (self : Player) (grid : Grid) : Nat → Except Fault Bool
  | 0 => .ok false
  | n + 1 =>
    match self.forEveryLineBody grid (self.settings_.size - ((n : Int) + 1)) with
    | .error e => .error e
    | .ok true => .ok true
    | .ok false => self.forEveryLineLoop grid n

/-- The method `Player::forEveryLine`: `pos` runs from `0` to `size - 1`. -/
def Player.forEveryLine (self : Player) (grid : Grid) : Except Fault Bool :=
  self.forEveryLineLoop grid self.settings_.size.toNat

/-- The method `Player::checkWin`. -/
def Player.checkWin (self : Player) (grid : Grid) : Except Fault Bool :=
  self.forEveryLine grid

/-- The method `Player::validMove`: `grid[i][j] == DEFAULT` with `size_t` indices. -/
def Player.validMove (grid : Grid) (i j : Nat) : Except Fault Bool :=
  match grid[i]? with
  | none => .error .outOfBounds
  | some row =>
    match row[j]? with
    | none => .error .outOfBounds
    | some c => .ok (c == DEFAULT)

/-- The assignment `grid[i][j] = c` with `size_t` indices that are inside the grid (the
grid is returned unchanged otherwise; `HumanPlayer::move` only writes after `validMove`
has read the same cell). -/
def setCell (grid : Grid) (i j : Nat) (c : Char) : Grid :=
  match grid[i]? with
  | none => grid
  | some row => grid.set i (row.set j c)

/-! ## Players -/

/-- The standard input as seen by `HumanPlayer::move`: the coordinate pairs that
`std::cin >> i >> j` will deliver, in order. -/
abbrev Input := List (Nat × Nat)

/-- The method `HumanPlayer::init`. -/
def HumanPlayer.init (settings : Settings) (mark : Char) : Player :=
  { settings_ := settings, mark_ := mark, isFirst_ := mark == FIRST }

/-- The input loop of `HumanPlayer::move`: pairs are read until `validMove` accepts one;
the accepted pair and the unread input are returned. -/
def HumanPlayer.readMove (grid : Grid) : Input → Except Fault ((Nat × Nat) × Input)
  | [] => .error .noInput
  | (i, j) :: rest =>
    match Player.validMove grid i j with
    | .error e => .error e
    | .ok true => .ok ((i, j), rest)
    | .ok false => HumanPlayer.readMove grid rest

/-- The method `HumanPlayer::move`. -/
def HumanPlayer.move (self : Player) (grid : Grid) (input : Input) :
    Except Fault (Result × Grid × Input) :=
  match HumanPlayer.readMove grid input with
  | .error e => .error e
  | .ok ((i, j), rest) =>
    let grid := setCell grid i j self.mark_
    match self.checkWin grid with
    | .error e => .error e
    | .ok true => .ok (if self.isFirst_ then Result.FIRST else Result.SECOND, grid, rest)
    | .ok false => .ok (Result.NOTHING, grid, rest)

/-- The class `ComputerPlayer`: the members of `Player` and the private grid `own_`. -/
structure ComputerPlayer extends Player where
  own_ : Grid := []
  deriving DecidableEq, Repr

/-- The method `ComputerPlayer::init`; `own_.resize` builds a row of `settings.size`
cells first, which throws for a negative size. -/
def ComputerPlayer.init (settings : Settings) (mark : Char) : Except Fault ComputerPlayer :=
  match makeGrid settings.size with
  | .error e => .error e
  | .ok own =>
    .ok { settings_ := settings, own_ := own, mark_ := mark, isFirst_ := mark == FIRST }

/-- The method `ComputerPlayer::move`: it returns `NOTHING` and touches neither the grid
nor the input. -/
def ComputerPlayer.move {σ : Type} (_self : ComputerPlayer) (grid : Grid) (world : σ) :
    Except Fault (Result × Grid × σ) :=
  .ok (Result.NOTHING, grid, world)

/-- An initialised player behind a `PlayerPtr`: the virtual method `move`.  The type `σ`
is everything outside the grid that a move may read or change (for a human player the
standard input). -/
structure PlayerPtr (σ : Type) where
  move : Grid → σ → Except Fault (Result × Grid × σ)

/-- A player that `startGame` receives: the virtual method `init`, which yields the
initialised player. -/
abbrev PlayerClass (σ : Type) := Settings → Char → Except Fault (PlayerPtr σ)

/-- The class `HumanPlayer` behind a `PlayerPtr`. -/
def HumanPlayer.make : PlayerClass Input :=
  fun settings mark => .ok { move := HumanPlayer.move (HumanPlayer.init settings mark) }

/-- The class `ComputerPlayer` behind a `PlayerPtr`. -/
def ComputerPlayer.make {σ : Type} : PlayerClass σ :=
  fun settings mark =>
    match ComputerPlayer.init settings mark with
    | .error e => .error e
    | .ok self => .ok { move := ComputerPlayer.move self }

/-! ## The game loop -/

/-- What a run of the program does, in program order. -/
inductive Event where
  /-- The call `first->init(settings, mark)` (`first = true`) or `second->init(...)`. -/
  | init (first : Bool) (settings : Settings) (mark : Char)
  /-- The call `makeGrid(size)`. -/
  | makeGrid (size : Int)
  /-- A call of `move` has returned `result` and `numEmptyCells` has been decremented:
  the grid and the counter right after the decrement. -/
  | moved (first : Bool) (result : Result) (grid : Grid) (numEmptyCells : Nat)
  /-- The call `finish(result, grid)`. -/
  | finish (result : Result) (grid : Grid)
  deriving DecidableEq, Repr

/-- A run: the events it produced and how it ended. -/
abbrev Run := List Event × Except Fault Unit

/-- Events that happen before the rest of a run. -/
def emit (events : List Event) (run : Run) : Run :=
  (events ++ run.1, run.2)

/-- The function `finish`: the grid is printed, then the result is reported or an
exception is thrown.  The `default` branch of the `switch` has no counterpart: `Result`
has no sixth value. -/
def finish (result : Result) (grid : Grid) : Run :=
  ([Event.finish result grid],
    match result with
    | .NOTHING => .error .logicError
    | .FIRST => .ok ()
    | .SECOND => .ok ()
    | .ERROR => .error .terminate
    | .DRAW => .ok ())

/-- The value `2^64`: `size_t` arithmetic is modulo this number. -/
def SIZE_T_RANGE : Nat := 18446744073709551616

/-- The statement `--numEmptyCells` on a `size_t`. -/
def decr (numEmptyCells : Nat) : Nat :=
  (numEmptyCells + (SIZE_T_RANGE - 1)) % SIZE_T_RANGE

/-- The `while` loop of `game`; one unit of fuel is one iteration (two moves).  The loop
is only entered with `result == NOTHING`. -/
def gameLoop {σ : Type} (first second : PlayerPtr σ) : Nat → Grid → Nat → σ → Run
  | 0, _, _, _ => ([], .error .outOfFuel)
  | fuel + 1, grid, numEmptyCells, world =>
    match first.move grid world with
    | .error e => ([], .error e)
    | .ok (result, grid, world) =>
      let numEmptyCells := decr numEmptyCells
      emit [Event.moved true result grid numEmptyCells] <|
        if result ≠ Result.NOTHING then finish result grid
        else if numEmptyCells = 0 then finish Result.DRAW grid
        else
          match second.move grid world with
          | .error e => ([], .error e)
          | .ok (result, grid, world) =>
            let numEmptyCells := decr numEmptyCells
            emit [Event.moved false result grid numEmptyCells] <|
              if numEmptyCells = 0 then finish Result.DRAW grid
              else if result = Result.NOTHING then
                gameLoop first second fuel grid numEmptyCells world
              else finish result grid

/-- The function `game`; `numEmptyCells` starts as `grid.size() * grid.size()`. -/
def game {σ : Type} (fuel : Nat) (first second : PlayerPtr σ) (grid : Grid) (world : σ) :
    Run :=
  gameLoop first second fuel grid ((grid.length * grid.length) % SIZE_T_RANGE) world

/-- The function `startGame`; `size` and `lineLen` are the two numbers read from the
standard input and `world` is what the moves will see. -/
def startGame {σ : Type} (fuel : Nat) (first second : PlayerClass σ) (size lineLen : Int)
    (world : σ) : Run :=
  if size < 3 ∨ size > 100 then ([], .error (.rangeError "Grid size is " size))
  else if lineLen < 3 ∨ lineLen > size then ([], .error (.rangeError "Line len is " lineLen))
  else
    let settings : Settings := { size := size, lineLen := lineLen }
    emit [Event.init true settings FIRST] <|
      match first settings FIRST with
      | .error e => ([], .error e)
      | .ok firstPtr =>
        emit [Event.init false settings SECOND] <|
          match second settings SECOND with
          | .error e => ([], .error e)
          | .ok secondPtr =>
            emit [Event.makeGrid size] <|
              match makeGrid size with
              | .error e => ([], .error e)
              | .ok grid => game fuel firstPtr secondPtr grid world

/-! ## Vocabulary of the specification -/

/-- A square grid of dimension `s`: `s` rows of `s` cells. -/
def Square (grid : Grid) (s : Nat) : Prop :=
  grid.length = s ∧ ∀ row ∈ grid, row.length = s

instance (grid : Grid) (s : Nat) : Decidable (Square grid s) := by
  unfold Square; infer_instance

/-- The `l` consecutive cells that start at `(i, j)` and advance by `(di, dj)` all lie in
the grid and hold `mark`. -/
def RunAt (grid : Grid) (mark : Char) (i j di dj : Int) (l : Nat) : Prop :=
  ∀ k : Nat, k < l → cellAt grid (i + k * di) (j + k * dj) = some mark

instance (grid : Grid) (mark : Char) (i j di dj : Int) (l : Nat) :
    Decidable (RunAt grid mark i j di dj l) := by
  unfold RunAt; infer_instance

/-- The grid holds `l` consecutive cells equal to `mark` along a row, a column, a
down-right diagonal or a down-left diagonal. -/
def HasLine (grid : Grid) (mark : Char) (l : Nat) : Prop :=
  ∃ i j : Int, RunAt grid mark i j 0 1 l ∨ RunAt grid mark i j 1 0 l
    ∨ RunAt grid mark i j 1 1 l ∨ RunAt grid mark i j 1 (-1) l

/-- The number of Empty cells of a grid. -/
def countEmpty (grid : Grid) : Nat :=
  (grid.map (List.count DEFAULT)).sum

/-- The results that calls of `finish` received, in order. -/
def finishCalls : List Event → List Result
  | [] => []
  | Event.finish result _ :: rest => result :: finishCalls rest
  | _ :: rest => finishCalls rest

/-- The event is a `move` that signalled a win, a draw or an error. -/
def Event.isDecisive : Event → Bool
  | Event.moved _ result _ _ => result != Result.NOTHING
  | _ => false

/-- The range check of the session configuration. -/
def ValidSettings (size lineLen : Int) : Prop :=
  3 ≤ size ∧ size ≤ 100 ∧ 3 ≤ lineLen ∧ lineLen ≤ size

instance (size lineLen : Int) : Decidable (ValidSettings size lineLen) := by
  unfold ValidSettings; infer_instance

/-- The cell `(i, j)` lies in the grid and is Empty. -/
def emptyAt (grid : Grid) (i j : Nat) : Prop :=
  ∃ row, grid[i]? = some row ∧ row[j]? = some DEFAULT

/-- Every coordinate pair of the input lies inside a grid of dimension `s`. -/
def InBounds (s : Nat) (input : Input) : Prop :=
  ∀ p ∈ input, p.1 < s ∧ p.2 < s

/-- The input names every Empty cell of the grid at least once. -/
def CoversEmpty (grid : Grid) (input : Input) : Prop :=
  ∀ i j, emptyAt grid i j → (i, j) ∈ input

/-- The input names every cell of a grid of dimension `s` at least once. -/
def CoversAll (s : Nat) (input : Input) : Prop :=
  ∀ i, i < s → ∀ j, j < s → (i, j) ∈ input

instance (s : Nat) (input : Input) : Decidable (CoversAll s input) := by
  unfold CoversAll; infer_instance

instance (s : Nat) (input : Input) : Decidable (InBounds s input) := by
  unfold InBounds; infer_instance

/-- The grid holds `l` consecutive cells equal to `mark` along a row, a column, a
down-right diagonal, or a down-left diagonal that begins in the top row of a grid of
dimension `s`: the sum `i + j`, which is the same for all cells of a down-left diagonal,
is at most `s - 1`. -/
def HasScannedLine (grid : Grid) (mark : Char) (l s : Nat) : Prop :=
  ∃ i j : Int, RunAt grid mark i j 0 1 l ∨ RunAt grid mark i j 1 0 l
    ∨ RunAt grid mark i j 1 1 l ∨ (RunAt grid mark i j 1 (-1) l ∧ i + j ≤ (s : Int) - 1)

/-- The cells at which the `while` loop of `Player::checkWinLine` evaluates
`grid[start.i][start.j]`, in order (the same loop as `Player.checkWinLineLoop`, recording
the index instead of the result). -/
def Player.checkWinLineReads (self : Player) (grid : Grid) (stepI stepJ : Int) :
    Nat → Cell → Int → List Cell
  | 0, _, _ => []
  | fuel + 1, start, count =>
    if self.okBorders start then
      start ::
        match cellAt grid start.i start.j with
        | none => []
        | some cur =>
          let count := if cur = self.mark_ then count + 1 else 0
          if count ≥ self.settings_.lineLen then []
          else self.checkWinLineReads grid stepI stepJ fuel
            { i := start.i + stepI, j := start.j + stepJ } count
    else []

/-- The six scans of one pass of the `for` loop of `Player::forEveryLine`, in program
order, each as start cell, `stepI` and `stepJ`. -/
def scansAt (pos : Int) : List (Cell × Int × Int) :=
  [({ i := pos, j := 0 }, 0, 1),
   ({ i := pos, j := 0 }, 1, 1),
   ({ i := pos, j := 0 }, 1, -1),
   ({ i := 0, j := pos }, 1, 0),
   ({ i := 0, j := pos }, 1, 1),
   ({ i := 0, j := pos }, 1, -1)]

/-- The number of cells of a grid that hold `mark`. -/
def countMark (mark : Char) (grid : Grid) : Nat :=
  (grid.map (List.count mark)).sum

/-- Every cell that holds a mark in `grid` holds the same mark in `grid'`: no cell went
from a mark back to Empty or from one mark to the other. -/
def Keeps (grid grid' : Grid) : Prop :=
  ∀ (i j : Int) (c : Char), cellAt grid i j = some c → c ≠ DEFAULT → cellAt grid' i j = some c

/-- The player behind the pointer is a `HumanPlayer` with a mark other than Empty, or a
`ComputerPlayer`. -/
def IsHumanOrComputer (p : PlayerPtr Input) : Prop :=
  (∃ self : Player, self.mark_ ≠ DEFAULT ∧ p.move = HumanPlayer.move self)
    ∨ (∃ self : ComputerPlayer, p.move = ComputerPlayer.move self)

/-- Along a list of events, starting from `grid`, the grid of every returned move keeps
the marks of the grid before it. -/
def KeepsChain : Grid → List Event → Prop
  | _, [] => True
  | grid, Event.moved _ _ grid' _ :: rest => Keeps grid grid' ∧ KeepsChain grid' rest
  | grid, _ :: rest => KeepsChain grid rest

/-- The calls of `move` that the `while` loop of `game` makes, in order, each with what
it returned (the same loop as `gameLoop`, recording the calls instead of the events). -/
def moveCalls {σ : Type} (first second : PlayerPtr σ) :
    Nat → Grid → Nat → σ → List (Except Fault (Result × Grid × σ))
  | 0, _, _, _ => []
  | fuel + 1, grid, numEmptyCells, world =>
    first.move grid world ::
      match first.move grid world with
      | .error _ => []
      | .ok (result, grid, world) =>
        let numEmptyCells := decr numEmptyCells
        if result ≠ Result.NOTHING then []
        else if numEmptyCells = 0 then []
        else
          second.move grid world ::
            match second.move grid world with
            | .error _ => []
            | .ok (result, grid, world) =>
              let numEmptyCells := decr numEmptyCells
              if numEmptyCells = 0 then []
              else if result = Result.NOTHING then
                moveCalls first second fuel grid numEmptyCells world
              else []

/-- The calls of `move` that `game` makes. -/
def gameMoveCalls {σ : Type} (fuel : Nat) (first second : PlayerPtr σ) (grid : Grid)
    (world : σ) : List (Except Fault (Result × Grid × σ)) :=
  moveCalls first second fuel grid ((grid.length * grid.length) % SIZE_T_RANGE) world

/-- The call of `move` returned (it did not block, throw or index out of range). -/
def callReturned {σ : Type} : Except Fault (Result × Grid × σ) → Bool
  | .ok _ => true
  | .error _ => false

/-- The call of `move` returned `NOTHING`, `FIRST` or `SECOND`. -/
def callReturnedPlayerResult {σ : Type} : Except Fault (Result × Grid × σ) → Bool
  | .ok (result, _, _) =>
    result == Result.NOTHING || result == Result.FIRST || result == Result.SECOND
  | .error _ => false

/-- Short-circuit sequencing of scans, as in `if (scan) return true;` repeated: the first
scan that faults or returns `true` decides. -/
def firstTrue : List (Except Fault Bool) → Except Fault Bool
  | [] => .ok false
  | .error e :: _ => .error e
  | .ok true :: _ => .ok true
  | .ok false :: rest => firstTrue rest

/-! ## Concrete boards and inputs used below -/

/-- A size-4 board whose only marks are three `x` on the down-left diagonal
`(1,3), (2,2), (3,1)`. -/
def lowerAntiDiagonalGrid : Grid :=
  [['.', '.', '.', '.'],
   ['.', '.', '.', 'x'],
   ['.', '.', 'x', '.'],
   ['.', 'x', '.', '.']]

/-- Sixteen moves on a size-4 board; the last one, by the second player, completes the
top row of `o` and fills the last empty cell. -/
def lastCellWinInput : Input :=
  [(1,0), (1,3), (1,1), (2,2), (1,2), (3,0), (2,0), (3,3),
   (2,1), (0,0), (2,3), (0,1), (3,1), (0,2), (3,2), (0,3)]

/-- The board after the sixteen moves of `lastCellWinInput`. -/
def lastCellWinGrid : Grid :=
  [['o', 'o', 'o', 'o'],
   ['x', 'x', 'x', 'o'],
   ['x', 'x', 'o', 'x'],
   ['o', 'x', 'x', 'o']]

/-- The size-5 board of the specification: `x` at `(0,0), (1,1), (2,2), (3,3)`. -/
def diagonalGrid5 : Grid :=
  [['x', '.', '.', '.', '.'],
   ['.', 'x', '.', '.', '.'],
   ['.', '.', 'x', '.', '.'],
   ['.', '.', '.', 'x', '.'],
   ['.', '.', '.', '.', '.']]

/-- The empty size-3 board. -/
def emptyGrid3 : Grid :=
  [['.', '.', '.'], ['.', '.', '.'], ['.', '.', '.']]

/-- Nine moves that fill the size-3 board without any three in a row. -/
def drawInput3 : Input :=
  [(0,0), (0,1), (0,2), (1,1), (1,0), (1,2), (2,1), (2,0), (2,2)]

/-- A `ComputerPlayer` object with mark `x`. -/
def computerX : ComputerPlayer :=
  { mark_ := 'x', isFirst_ := true, settings_ := { size := 3, lineLen := 3 }, own_ := emptyGrid3 }

/-- A `ComputerPlayer` object with mark `o`. -/
def computerO : ComputerPlayer :=
  { mark_ := 'o', isFirst_ := false, settings_ := { size := 3, lineLen := 3 }, own_ := emptyGrid3 }

/-- A size-3 position in which `o` completes the top row by moving to `(0, 2)`. -/
def secondToWinGrid : Grid :=
  [['o', 'o', '.'],
   ['x', 'x', '.'],
   ['.', '.', 'x']]

/-- The size-3 board of the specification with `x` in the top row. -/
def rowGrid3 : Grid :=
  [['x', 'x', 'x'], ['.', '.', '.'], ['.', '.', '.']]

/-- The size-3 board of the specification with `x` on the main diagonal. -/
def diagonalGrid3 : Grid :=
  [['x', '.', '.'], ['.', 'x', '.'], ['.', '.', 'x']]

/-- A size-4 board whose only marks are three `x` on the down-left diagonal
`(0,2), (1,1), (2,0)`. -/
def upperAntiDiagonalGrid : Grid :=
  [['.', '.', 'x', '.'],
   ['.', 'x', '.', '.'],
   ['x', '.', '.', '.'],
   ['.', '.', '.', '.']]

/-- The size-3 board after the first five moves of `drawInput3`. -/
def fiveMovesGrid3 : Grid :=
  [['x', 'o', 'x'],
   ['x', 'o', '.'],
   ['.', '.', '.']]

/-- Five moves on the size-3 board after which the first player has the top row. -/
def firstWinsInput3 : Input :=
  [(0,0), (1,0), (0,1), (1,1), (0,2)]

/-! ## The detector: shared lemmas -/

/-- One pass of the `for` loop is the short-circuit sequence of its six scans. -/
theorem forEveryLineBody_eq (self : Player) (grid : Grid) (pos : Int) :
    self.forEveryLineBody grid pos = firstTrue
      [self.checkWinLine grid { i := pos, j := 0 } 0 1,
       self.checkWinLine grid { i := pos, j := 0 } 1 1,
       self.checkWinLine grid { i := pos, j := 0 } 1 (-1),
       self.checkWinLine grid { i := 0, j := pos } 1 0,
       self.checkWinLine grid { i := 0, j := pos } 1 1,
       self.checkWinLine grid { i := 0, j := pos } 1 (-1)] := by
  unfold Player.forEveryLineBody
  cases h1 : self.checkWinLine grid { i := pos, j := 0 } 0 1 with
  | error e => rfl
  | ok b1 =>
    cases b1 with
    | true => rfl
    | false =>
      cases h2 : self.checkWinLine grid { i := pos, j := 0 } 1 1 with
      | error e => rfl
      | ok b2 =>
        cases b2 with
        | true => rfl
        | false =>
          cases h3 : self.checkWinLine grid { i := pos, j := 0 } 1 (-1) with
          | error e => rfl
          | ok b3 =>
            cases b3 with
            | true => rfl
            | false =>
              cases h4 : self.checkWinLine grid { i := 0, j := pos } 1 0 with
              | error e => rfl
              | ok b4 =>
                cases b4 with
                | true => rfl
                | false =>
                  cases h5 : self.checkWinLine grid { i := 0, j := pos } 1 1 with
                  | error e => rfl
                  | ok b5 =>
                    cases b5 with
                    | true => rfl
                    | false =>
                      cases h6 : self.checkWinLine grid { i := 0, j := pos } 1 (-1) with
                      | error e => rfl
                      | ok b6 => cases b6 <;> rfl

/-- A sequence of scans that yields `true` contains a scan that returned `true`. -/
theorem firstTrue_true {l : List (Except Fault Bool)} (h : firstTrue l = .ok true) :
    .ok true ∈ l := by
  induction l with
  | nil => simp [firstTrue] at h
  | cons x rest ih =>
    match x, h with
    | .error e, h => simp [firstTrue] at h
    | .ok true, _ => simp
    | .ok false, h =>
      simp only [firstTrue] at h
      exact List.mem_cons_of_mem _ (ih h)

/-- Soundness of the scan loop.  Invariant: the `count` cells right behind `start` hold the
mark.  A scan that returns `true` has walked over `lineLen` consecutive marked cells. -/
theorem checkWinLineLoop_sound (self : Player) (grid : Grid) (di dj : Int)
    (hl : 1 ≤ self.settings_.lineLen) :
    ∀ (fuel : Nat) (start : Cell) (count : Int), 0 ≤ count →
      (∀ k : Nat, (k : Int) < count →
        cellAt grid (start.i - (k + 1) * di) (start.j - (k + 1) * dj) = some self.mark_) →
      self.checkWinLineLoop grid di dj fuel start count = .ok true →
      ∃ i j, RunAt grid self.mark_ i j di dj self.settings_.lineLen.toNat := by
  intro fuel
  induction fuel with
  | zero => intro start count _ _ h; simp [Player.checkWinLineLoop] at h
  | succ fuel ih =>
    intro start count hc hinv h
    unfold Player.checkWinLineLoop at h
    split at h
    · split at h
      · simp at h
      · rename_i cur hcur
        by_cases hm : cur = self.mark_
        · simp only [hm, if_true] at h
          have hinv' : ∀ k : Nat, (k : Int) < count + 1 →
              cellAt grid (start.i + di - (k + 1) * di) (start.j + dj - (k + 1) * dj)
                = some self.mark_ := by
            intro k hk
            cases k with
            | zero =>
              have e1 : start.i + di - ((0 : Nat) + 1 : Int) * di = start.i := by push_cast; ring
              have e2 : start.j + dj - ((0 : Nat) + 1 : Int) * dj = start.j := by push_cast; ring
              rw [e1, e2, hcur, hm]
            | succ k =>
              have := hinv k (by push_cast at hk; omega)
              have e1 : start.i + di - ((k + 1 : Nat) + 1 : Int) * di
                  = start.i - ((k : Int) + 1) * di := by push_cast; ring
              have e2 : start.j + dj - ((k + 1 : Nat) + 1 : Int) * dj
                  = start.j - ((k : Int) + 1) * dj := by push_cast; ring
              rw [e1, e2]; exact this
          split at h
          · rename_i hge
            refine ⟨start.i + di - self.settings_.lineLen * di,
              start.j + dj - self.settings_.lineLen * dj, ?_⟩
            intro k hk
            have hk' : (k : Int) < self.settings_.lineLen := by omega
            obtain ⟨m, hm'⟩ : ∃ m : Nat, (m : Int) = self.settings_.lineLen - 1 - k :=
              ⟨(self.settings_.lineLen - 1 - k).toNat, by omega⟩
            have := hinv' m (by omega)
            have e1 : start.i + di - self.settings_.lineLen * di + k * di
                = start.i + di - ((m : Int) + 1) * di := by rw [hm']; ring
            have e2 : start.j + dj - self.settings_.lineLen * dj + k * dj
                = start.j + dj - ((m : Int) + 1) * dj := by rw [hm']; ring
            rw [e1, e2]; exact this
          · exact ih _ _ (by omega) hinv' h
        · simp only [hm, if_false] at h
          split at h
          · omega
          · exact ih _ 0 (le_refl _) (by intro k hk; omega) h
    · simp at h

/-- Inside a square grid every cell can be read. -/
theorem cellAt_of_square {grid : Grid} {s : Nat} (hsq : Square grid s) {i j : Int}
    (hi0 : 0 ≤ i) (hi : i < s) (hj0 : 0 ≤ j) (hj : j < s) :
    ∃ c, cellAt grid i j = some c := by
  have h1 : ¬ (i < 0 ∨ j < 0) := by omega
  have hlen : i.toNat < grid.length := by have := hsq.1; omega
  have hrow : grid[i.toNat]? = some grid[i.toNat] := List.getElem?_eq_getElem hlen
  have hrl : (grid[i.toNat]).length = s := hsq.2 _ (List.getElem_mem hlen)
  have hjl : j.toNat < (grid[i.toNat]).length := by omega
  refine ⟨(grid[i.toNat])[j.toNat], ?_⟩
  simp only [cellAt, h1, if_false, hrow]
  exact List.getElem?_eq_getElem hjl

/-- On a square grid of the player's size a scan that advances by one row, or by one
column, per step returns before its fuel is used up and never indexes out of range. -/
theorem checkWinLineLoop_total (self : Player) (grid : Grid) (di dj : Int) (s : Nat)
    (hsize : self.settings_.size = s) (hsq : Square grid s) :
    ∀ (fuel : Nat) (start : Cell) (count : Int), 0 < fuel →
      (di = 1 ∧ self.settings_.size - start.i < fuel
        ∨ dj = 1 ∧ self.settings_.size - start.j < fuel) →
      ∃ b, self.checkWinLineLoop grid di dj fuel start count = .ok b := by
  intro fuel
  induction fuel with
  | zero => intro _ _ h; omega
  | succ fuel ih =>
    intro start count _ hm
    unfold Player.checkWinLineLoop
    by_cases hb : self.okBorders start = true
    · simp only [hb, if_true]
      simp only [Player.okBorders, Bool.and_eq_true, decide_eq_true_eq] at hb
      obtain ⟨c, hc⟩ := cellAt_of_square hsq (i := start.i) (j := start.j)
        (by omega) (by omega) (by omega) (by omega)
      simp only [hc]
      generalize (if c = self.mark_ then count + 1 else 0) = count'
      by_cases hge : count' ≥ self.settings_.lineLen
      · exact ⟨true, by simp only [hge, if_true]⟩
      · simp only [hge, if_false]
        apply ih
        · omega
        · rcases hm with ⟨h1, h2⟩ | ⟨h1, h2⟩
          · left; exact ⟨h1, by simp only []; omega⟩
          · right; exact ⟨h1, by simp only []; omega⟩
    · simp only [hb]
      exact ⟨false, rfl⟩

/-- A sequence of scans that all return does return. -/
theorem firstTrue_total {l : List (Except Fault Bool)} (h : ∀ x ∈ l, ∃ b, x = .ok b) :
    ∃ b, firstTrue l = .ok b := by
  induction l with
  | nil => exact ⟨false, rfl⟩
  | cons x rest ih =>
    obtain ⟨b, hb⟩ := h x (List.mem_cons_self _ _)
    subst hb
    cases b with
    | true => exact ⟨true, rfl⟩
    | false =>
      simp only [firstTrue]
      exact ih (fun y hy => h y (List.mem_cons_of_mem _ hy))

/-- The scans that start on the board with a unit step down or right return. -/
theorem checkWinLine_total (self : Player) (grid : Grid) (s : Nat)
    (hsize : self.settings_.size = s) (hsq : Square grid s) (start : Cell) (di dj : Int)
    (hdir : di = 1 ∧ 0 ≤ start.i ∨ dj = 1 ∧ 0 ≤ start.j) :
    ∃ b, self.checkWinLine grid start di dj = .ok b := by
  unfold Player.checkWinLine
  apply checkWinLineLoop_total self grid di dj s hsize hsq
  · omega
  · rcases hdir with ⟨h1, h2⟩ | ⟨h1, h2⟩
    · left; exact ⟨h1, by omega⟩
    · right; exact ⟨h1, by omega⟩

/-- A scan that returns `true` has found a line in its direction. -/
theorem checkWinLine_sound (self : Player) (grid : Grid) (hl : 1 ≤ self.settings_.lineLen)
    (start : Cell) (di dj : Int) (h : self.checkWinLine grid start di dj = .ok true) :
    ∃ i j, RunAt grid self.mark_ i j di dj self.settings_.lineLen.toNat :=
  checkWinLineLoop_sound self grid di dj hl _ start 0 (le_refl _) (by intro k hk; omega) h

/-- One pass of the `for` loop returns on a square grid of the player's size. -/
theorem forEveryLineBody_total (self : Player) (grid : Grid) (s : Nat)
    (hsize : self.settings_.size = s) (hsq : Square grid s) (pos : Int) (hpos : 0 ≤ pos) :
    ∃ b, self.forEveryLineBody grid pos = .ok b := by
  rw [forEveryLineBody_eq]
  apply firstTrue_total
  intro x hx
  simp only [List.mem_cons, List.mem_singleton, List.not_mem_nil, or_false] at hx
  rcases hx with rfl | rfl | rfl | rfl | rfl | rfl <;>
    exact checkWinLine_total self grid s hsize hsq _ _ _ (by simp [hpos])

/-- A pass of the `for` loop that returns `true` has found a line. -/
theorem forEveryLineBody_sound (self : Player) (grid : Grid) (hl : 1 ≤ self.settings_.lineLen)
    (pos : Int) (h : self.forEveryLineBody grid pos = .ok true) :
    HasLine grid self.mark_ self.settings_.lineLen.toNat := by
  rw [forEveryLineBody_eq] at h
  have hx := firstTrue_true h
  simp only [List.mem_cons, List.mem_singleton, List.not_mem_nil, or_false] at hx
  rcases hx with hx | hx | hx | hx | hx | hx
  all_goals
    obtain ⟨i, j, hr⟩ := checkWinLine_sound self grid hl _ _ _ hx.symm
  · exact ⟨i, j, Or.inl hr⟩
  · exact ⟨i, j, Or.inr (Or.inr (Or.inl hr))⟩
  · exact ⟨i, j, Or.inr (Or.inr (Or.inr hr))⟩
  · exact ⟨i, j, Or.inr (Or.inl hr)⟩
  · exact ⟨i, j, Or.inr (Or.inr (Or.inl hr))⟩
  · exact ⟨i, j, Or.inr (Or.inr (Or.inr hr))⟩

/-- The `for` loop returns on a square grid of the player's size. -/
theorem forEveryLineLoop_total (self : Player) (grid : Grid) (s : Nat)
    (hsize : self.settings_.size = s) (hsq : Square grid s) :
    ∀ n : Nat, n ≤ s → ∃ b, self.forEveryLineLoop grid n = .ok b := by
  intro n
  induction n with
  | zero => intro _; exact ⟨false, rfl⟩
  | succ n ih =>
    intro hn
    obtain ⟨b, hb⟩ := forEveryLineBody_total self grid s hsize hsq
      (self.settings_.size - ((n : Int) + 1)) (by omega)
    simp only [Player.forEveryLineLoop, hb]
    cases b with
    | true => exact ⟨true, rfl⟩
    | false => exact ih (by omega)

/-- A `for` loop that returns `true` has found a line. -/
theorem forEveryLineLoop_sound (self : Player) (grid : Grid) (hl : 1 ≤ self.settings_.lineLen) :
    ∀ n : Nat, self.forEveryLineLoop grid n = .ok true →
      HasLine grid self.mark_ self.settings_.lineLen.toNat := by
  intro n
  induction n with
  | zero => intro h; simp [Player.forEveryLineLoop] at h
  | succ n ih =>
    intro h
    unfold Player.forEveryLineLoop at h
    split at h
    · simp at h
    · rename_i hb
      exact forEveryLineBody_sound self grid hl _ hb
    · exact ih h

/-- The detector returns on a square grid of the player's size. -/
theorem checkWin_total (self : Player) (grid : Grid) (s : Nat)
    (hsize : self.settings_.size = s) (hsq : Square grid s) :
    ∃ b, self.checkWin grid = .ok b := by
  unfold Player.checkWin Player.forEveryLine
  exact forEveryLineLoop_total self grid s hsize hsq _ (by omega)

/-- The detector returns, and `true` only when a line exists. -/
theorem checkWin_returns_sound (self : Player) (grid : Grid) (s : Nat)
    (hsize : self.settings_.size = s) (hsq : Square grid s)
    (hl : 1 ≤ self.settings_.lineLen) :
    ∃ b, self.checkWin grid = .ok b
      ∧ (b = true → HasLine grid self.mark_ self.settings_.lineLen.toNat) := by
  obtain ⟨b, hb⟩ := checkWin_total self grid s hsize hsq
  refine ⟨b, hb, ?_⟩
  intro hbt
  subst hbt
  exact forEveryLineLoop_sound self grid hl _ hb

/-- A cell that can be read in a square grid of the player's size is inside the borders. -/
theorem okBorders_of_cellAt (self : Player) {grid : Grid} {s : Nat}
    (hsize : self.settings_.size = s) (hsq : Square grid s) {i j : Int} {c : Char}
    (h : cellAt grid i j = some c) : self.okBorders { i := i, j := j } = true := by
  unfold cellAt at h
  split at h
  · simp at h
  · rename_i hneg
    split at h
    · simp at h
    · rename_i row hrow
      have hi : i.toNat < grid.length := (List.getElem?_eq_some.1 hrow).1
      have hj : j.toNat < row.length := (List.getElem?_eq_some.1 h).1
      have hlen := hsq.2 row (List.getElem?_mem hrow)
      have hl := hsq.1
      simp only [Player.okBorders, Bool.and_eq_true, decide_eq_true_eq]
      omega

/-- A scan that stands at the first of `m` consecutive marked cells, with `count + m`
reaching the line length, returns `true`. -/
theorem checkWinLineLoop_finish_run (self : Player) (grid : Grid) (di dj : Int) :
    ∀ (m fuel : Nat) (start : Cell) (count : Int), 0 ≤ count → 1 ≤ m → m ≤ fuel →
      self.settings_.lineLen ≤ count + m →
      (∀ k : Nat, k < m →
        self.okBorders { i := start.i + k * di, j := start.j + k * dj } = true
          ∧ cellAt grid (start.i + k * di) (start.j + k * dj) = some self.mark_) →
      self.checkWinLineLoop grid di dj fuel start count = .ok true := by
  intro m
  induction m with
  | zero => intro _ _ _ _ h; omega
  | succ m ih =>
    intro fuel start count hc _ hfuel hlen hcells
    obtain ⟨fuel, rfl⟩ : ∃ f, fuel = f + 1 := ⟨fuel - 1, by omega⟩
    obtain ⟨hb, hcell⟩ := hcells 0 (by omega)
    simp only [Nat.cast_zero, zero_mul, add_zero] at hb hcell
    unfold Player.checkWinLineLoop
    simp only [hb, if_true, hcell]
    by_cases hge : count + 1 ≥ self.settings_.lineLen
    · simp only [hge, if_true]
    · simp only [hge, if_false]
      apply ih fuel _ (count + 1) (by omega) (by omega) (by omega) (by push_cast at hlen; omega)
      intro k hk
      have := hcells (k + 1) (by omega)
      have e1 : start.i + di + (k : Int) * di = start.i + ((k + 1 : Nat) : Int) * di := by
        push_cast; ring
      have e2 : start.j + dj + (k : Int) * dj = start.j + ((k + 1 : Nat) : Int) * dj := by
        push_cast; ring
      simp only [e1, e2]
      exact this

/-- Completeness of the scan loop on a square grid of the player's size: a scan that
reaches, after `t` cells inside the borders, the first cell of a line returns `true`. -/
theorem checkWinLineLoop_complete (self : Player) (grid : Grid) (di dj : Int) (s : Nat)
    (hsize : self.settings_.size = s) (hsq : Square grid s)
    (hl : 1 ≤ self.settings_.lineLen) :
    ∀ (t fuel : Nat) (start : Cell) (count : Int), 0 ≤ count →
      t + self.settings_.lineLen.toNat ≤ fuel →
      (∀ k : Nat, k < t →
        self.okBorders { i := start.i + k * di, j := start.j + k * dj } = true) →
      RunAt grid self.mark_ (start.i + t * di) (start.j + t * dj) di dj
        self.settings_.lineLen.toNat →
      self.checkWinLineLoop grid di dj fuel start count = .ok true := by
  intro t
  induction t with
  | zero =>
    intro fuel start count hc hfuel _ hrun
    simp only [Nat.cast_zero, zero_mul, add_zero] at hrun
    apply checkWinLineLoop_finish_run self grid di dj self.settings_.lineLen.toNat fuel start
      count hc (by omega) (by omega) (by omega)
    intro k hk
    have := hrun k hk
    exact ⟨okBorders_of_cellAt self hsize hsq this, this⟩
  | succ t ih =>
    intro fuel start count hc hfuel hpath hrun
    obtain ⟨fuel, rfl⟩ : ∃ f, fuel = f + 1 := ⟨fuel - 1, by omega⟩
    have hb := hpath 0 (by omega)
    simp only [Nat.cast_zero, zero_mul, add_zero] at hb
    have hb' := hb
    simp only [Player.okBorders, Bool.and_eq_true, decide_eq_true_eq] at hb'
    obtain ⟨c, hc'⟩ := cellAt_of_square hsq (i := start.i) (j := start.j)
      (by omega) (by omega) (by omega) (by omega)
    unfold Player.checkWinLineLoop
    simp only [hb, if_true, hc']
    have hcount : (0 : Int) ≤ (if c = self.mark_ then count + 1 else 0) := by
      split <;> omega
    generalize (if c = self.mark_ then count + 1 else 0) = count' at hcount
    by_cases hge : count' ≥ self.settings_.lineLen
    · simp only [hge, if_true]
    · simp only [hge, if_false]
      apply ih fuel _ count' hcount (by omega)
      · intro k hk
        have := hpath (k + 1) (by omega)
        have e1 : start.i + di + (k : Int) * di = start.i + ((k + 1 : Nat) : Int) * di := by
          push_cast; ring
        have e2 : start.j + dj + (k : Int) * dj = start.j + ((k + 1 : Nat) : Int) * dj := by
          push_cast; ring
        simp only [e1, e2]
        exact this
      · have e1 : start.i + di + (t : Int) * di = start.i + ((t + 1 : Nat) : Int) * di := by
          push_cast; ring
        have e2 : start.j + dj + (t : Int) * dj = start.j + ((t + 1 : Nat) : Int) * dj := by
          push_cast; ring
        simp only [e1, e2]
        exact hrun

/-- A sequence of scans that all return and one of which returns `true` yields `true`. -/
theorem firstTrue_complete {l : List (Except Fault Bool)} (h : ∀ x ∈ l, ∃ b, x = .ok b)
    (hmem : .ok true ∈ l) : firstTrue l = .ok true := by
  induction l with
  | nil => simp at hmem
  | cons x rest ih =>
    obtain ⟨b, hb⟩ := h x (List.mem_cons_self _ _)
    subst hb
    cases b with
    | true => rfl
    | false =>
      simp only [firstTrue]
      apply ih (fun y hy => h y (List.mem_cons_of_mem _ hy))
      simpa using hmem

/-- On a square grid of the player's size the `for` loop returns `true` as soon as one
of its remaining passes does. -/
theorem forEveryLineLoop_complete (self : Player) (grid : Grid) (s : Nat)
    (hsize : self.settings_.size = s) (hsq : Square grid s) :
    ∀ (n : Nat) (pos : Int), n ≤ s → self.settings_.size - n ≤ pos →
      pos < self.settings_.size → self.forEveryLineBody grid pos = .ok true →
      self.forEveryLineLoop grid n = .ok true := by
  intro n
  induction n with
  | zero => intro pos _ h1 h2 _; simp at h1; omega
  | succ n ih =>
    intro pos hn h1 h2 hbody
    obtain ⟨b, hb⟩ := forEveryLineBody_total self grid s hsize hsq
      (self.settings_.size - ((n : Int) + 1)) (by omega)
    simp only [Player.forEveryLineLoop, hb]
    cases b with
    | true => rfl
    | false =>
      simp only []
      apply ih pos (by omega) _ h2 hbody
      by_contra hlt
      have hpos : pos = self.settings_.size - ((n : Int) + 1) := by
        push_cast at h1; omega
      rw [hpos, hb] at hbody
      simp at hbody

/-- Completeness of one scan of `forEveryLine`: if the line `(i, j), (i, j) + (di, dj), …`
begins `t` steps after `start`, and the `t` cells before it are inside the borders, the
scan returns `true`. -/
theorem checkWinLine_complete (self : Player) (grid : Grid) (s : Nat)
    (hsize : self.settings_.size = s) (hsq : Square grid s)
    (hl : 1 ≤ self.settings_.lineLen) (start : Cell) (di dj : Int) (t : Nat) (i j : Int)
    (hi : i = start.i + t * di) (hj : j = start.j + t * dj)
    (hpath : ∀ k : Nat, k < t →
      self.okBorders { i := start.i + k * di, j := start.j + k * dj } = true)
    (hfuel : t + self.settings_.lineLen.toNat ≤ s + 1)
    (hrun : RunAt grid self.mark_ i j di dj self.settings_.lineLen.toNat) :
    self.checkWinLine grid start di dj = .ok true := by
  unfold Player.checkWinLine
  subst hi hj
  exact checkWinLineLoop_complete self grid di dj s hsize hsq hl t _ start 0 (le_refl _)
    (by omega) hpath hrun

/-- The first and the last cell of a line lie inside the borders. -/
theorem runAt_bounds (self : Player) {grid : Grid} {s : Nat}
    (hsize : self.settings_.size = s) (hsq : Square grid s) {i j di dj : Int} {l : Nat}
    (hl : 1 ≤ l) (hrun : RunAt grid self.mark_ i j di dj l) :
    (0 ≤ i ∧ i < s ∧ 0 ≤ j ∧ j < s)
      ∧ (0 ≤ i + ((l : Int) - 1) * di ∧ i + ((l : Int) - 1) * di < s
        ∧ 0 ≤ j + ((l : Int) - 1) * dj ∧ j + ((l : Int) - 1) * dj < s) := by
  have h0 := okBorders_of_cellAt self hsize hsq (hrun 0 (by omega))
  have h1 := okBorders_of_cellAt self hsize hsq (hrun (l - 1) (by omega))
  have e : ((l - 1 : Nat) : Int) = (l : Int) - 1 := by omega
  rw [e] at h1
  simp only [Player.okBorders, Bool.and_eq_true, decide_eq_true_eq, Nat.cast_zero, zero_mul,
    add_zero] at h0 h1
  omega

/-- On a square grid of the player's size, `checkWin` returns `true` when one of the six
scans of some pass does. -/
theorem checkWin_of_scan (self : Player) (grid : Grid) (s : Nat)
    (hsize : self.settings_.size = s) (hsq : Square grid s) (pos : Int)
    (h0 : 0 ≤ pos) (h1 : pos < s)
    (h : .ok true ∈
      [self.checkWinLine grid { i := pos, j := 0 } 0 1,
       self.checkWinLine grid { i := pos, j := 0 } 1 1,
       self.checkWinLine grid { i := pos, j := 0 } 1 (-1),
       self.checkWinLine grid { i := 0, j := pos } 1 0,
       self.checkWinLine grid { i := 0, j := pos } 1 1,
       self.checkWinLine grid { i := 0, j := pos } 1 (-1)]) :
    self.checkWin grid = .ok true := by
  unfold Player.checkWin Player.forEveryLine
  apply forEveryLineLoop_complete self grid s hsize hsq _ pos (by omega) (by omega) (by omega)
  rw [forEveryLineBody_eq]
  apply firstTrue_complete _ h
  intro x hx
  simp only [List.mem_cons, List.mem_singleton, List.not_mem_nil, or_false] at hx
  rcases hx with rfl | rfl | rfl | rfl | rfl | rfl <;>
    exact checkWinLine_total self grid s hsize hsq _ _ _ (by simp [h0])

/-- A line along a row is found. -/
theorem checkWin_of_row (self : Player) (grid : Grid) (s : Nat)
    (hsize : self.settings_.size = s) (hsq : Square grid s)
    (hl : 1 ≤ self.settings_.lineLen) (i j : Int)
    (hrun : RunAt grid self.mark_ i j 0 1 self.settings_.lineLen.toNat) :
    self.checkWin grid = .ok true := by
  have hb := runAt_bounds self hsize hsq (by omega) hrun
  apply checkWin_of_scan self grid s hsize hsq i (by omega) (by omega)
  have : self.checkWinLine grid { i := i, j := 0 } 0 1 = .ok true := by
    apply checkWinLine_complete self grid s hsize hsq hl _ 0 1 j.toNat i j
      (by simp) (by simp; omega)
    · intro k hk
      simp only [Player.okBorders, Bool.and_eq_true, decide_eq_true_eq]
      omega
    · omega
    · exact hrun
  rw [this]
  simp

/-- A line along a column is found. -/
theorem checkWin_of_column (self : Player) (grid : Grid) (s : Nat)
    (hsize : self.settings_.size = s) (hsq : Square grid s)
    (hl : 1 ≤ self.settings_.lineLen) (i j : Int)
    (hrun : RunAt grid self.mark_ i j 1 0 self.settings_.lineLen.toNat) :
    self.checkWin grid = .ok true := by
  have hb := runAt_bounds self hsize hsq (by omega) hrun
  apply checkWin_of_scan self grid s hsize hsq j (by omega) (by omega)
  have : self.checkWinLine grid { i := 0, j := j } 1 0 = .ok true := by
    apply checkWinLine_complete self grid s hsize hsq hl _ 1 0 i.toNat i j
      (by simp; omega) (by simp)
    · intro k hk
      simp only [Player.okBorders, Bool.and_eq_true, decide_eq_true_eq]
      omega
    · omega
    · exact hrun
  rw [this]
  simp

/-- A line along a down-right diagonal is found. -/
theorem checkWin_of_diagonal (self : Player) (grid : Grid) (s : Nat)
    (hsize : self.settings_.size = s) (hsq : Square grid s)
    (hl : 1 ≤ self.settings_.lineLen) (i j : Int)
    (hrun : RunAt grid self.mark_ i j 1 1 self.settings_.lineLen.toNat) :
    self.checkWin grid = .ok true := by
  have hb := runAt_bounds self hsize hsq (by omega) hrun
  by_cases hij : j ≤ i
  · apply checkWin_of_scan self grid s hsize hsq (i - j) (by omega) (by omega)
    have : self.checkWinLine grid { i := i - j, j := 0 } 1 1 = .ok true := by
      apply checkWinLine_complete self grid s hsize hsq hl _ 1 1 j.toNat i j
        (by simp; omega) (by simp; omega)
      · intro k hk
        simp only [Player.okBorders, Bool.and_eq_true, decide_eq_true_eq]
        omega
      · omega
      · exact hrun
    rw [this]
    simp
  · apply checkWin_of_scan self grid s hsize hsq (j - i) (by omega) (by omega)
    have : self.checkWinLine grid { i := 0, j := j - i } 1 1 = .ok true := by
      apply checkWinLine_complete self grid s hsize hsq hl _ 1 1 i.toNat i j
        (by simp; omega) (by simp; omega)
      · intro k hk
        simp only [Player.okBorders, Bool.and_eq_true, decide_eq_true_eq]
        omega
      · omega
      · exact hrun
    rw [this]
    simp

/-- A line along a down-left diagonal that begins in the top row is found. -/
theorem checkWin_of_upper_antidiagonal (self : Player) (grid : Grid) (s : Nat)
    (hsize : self.settings_.size = s) (hsq : Square grid s)
    (hl : 1 ≤ self.settings_.lineLen) (i j : Int) (hsum : i + j ≤ (s : Int) - 1)
    (hrun : RunAt grid self.mark_ i j 1 (-1) self.settings_.lineLen.toNat) :
    self.checkWin grid = .ok true := by
  have hb := runAt_bounds self hsize hsq (by omega) hrun
  apply checkWin_of_scan self grid s hsize hsq (i + j) (by omega) (by omega)
  have : self.checkWinLine grid { i := 0, j := i + j } 1 (-1) = .ok true := by
    apply checkWinLine_complete self grid s hsize hsq hl _ 1 (-1) i.toNat i j
      (by simp; omega) (by simp; omega)
    · intro k hk
      simp only [Player.okBorders, Bool.and_eq_true, decide_eq_true_eq]
      omega
    · omega
    · exact hrun
  rw [this]
  simp

/-- Soundness of the scan loop with the position of the line: the line that a scan reports
lies on the scan's own path and begins at most `count` cells behind `start`. -/
theorem checkWinLineLoop_sound_on_path (self : Player) (grid : Grid) (di dj : Int)
    (hl : 1 ≤ self.settings_.lineLen) :
    ∀ (fuel : Nat) (start : Cell) (count : Int), 0 ≤ count →
      (∀ k : Nat, (k : Int) < count →
        cellAt grid (start.i - (k + 1) * di) (start.j - (k + 1) * dj) = some self.mark_) →
      self.checkWinLineLoop grid di dj fuel start count = .ok true →
      ∃ t : Int, -count ≤ t ∧ RunAt grid self.mark_ (start.i + t * di) (start.j + t * dj)
        di dj self.settings_.lineLen.toNat := by
  intro fuel
  induction fuel with
  | zero => intro start count _ _ h; simp [Player.checkWinLineLoop] at h
  | succ fuel ih =>
    intro start count hc hinv h
    unfold Player.checkWinLineLoop at h
    split at h
    · split at h
      · simp at h
      · rename_i cur hcur
        by_cases hm : cur = self.mark_
        · simp only [hm, if_true] at h
          have hinv' : ∀ k : Nat, (k : Int) < count + 1 →
              cellAt grid (start.i + di - (k + 1) * di) (start.j + dj - (k + 1) * dj)
                = some self.mark_ := by
            intro k hk
            cases k with
            | zero =>
              have e1 : start.i + di - ((0 : Nat) + 1 : Int) * di = start.i := by
                push_cast; ring
              have e2 : start.j + dj - ((0 : Nat) + 1 : Int) * dj = start.j := by
                push_cast; ring
              rw [e1, e2, hcur, hm]
            | succ k =>
              have := hinv k (by push_cast at hk; omega)
              have e1 : start.i + di - ((k + 1 : Nat) + 1 : Int) * di
                  = start.i - ((k : Int) + 1) * di := by push_cast; ring
              have e2 : start.j + dj - ((k + 1 : Nat) + 1 : Int) * dj
                  = start.j - ((k : Int) + 1) * dj := by push_cast; ring
              rw [e1, e2]; exact this
          split at h
          · rename_i hge
            refine ⟨1 - self.settings_.lineLen, by omega, ?_⟩
            intro k hk
            have hk' : (k : Int) < self.settings_.lineLen := by omega
            obtain ⟨m, hm'⟩ : ∃ m : Nat, (m : Int) = self.settings_.lineLen - 1 - k :=
              ⟨(self.settings_.lineLen - 1 - k).toNat, by omega⟩
            have := hinv' m (by omega)
            have e1 : start.i + (1 - self.settings_.lineLen) * di + k * di
                = start.i + di - ((m : Int) + 1) * di := by rw [hm']; ring
            have e2 : start.j + (1 - self.settings_.lineLen) * dj + k * dj
                = start.j + dj - ((m : Int) + 1) * dj := by rw [hm']; ring
            rw [e1, e2]; exact this
          · obtain ⟨t, ht, hrun⟩ := ih _ _ (by omega) hinv' h
            refine ⟨t + 1, by omega, ?_⟩
            have e1 : start.i + (t + 1) * di = start.i + di + t * di := by ring
            have e2 : start.j + (t + 1) * dj = start.j + dj + t * dj := by ring
            rw [e1, e2]; exact hrun
        · simp only [hm, if_false] at h
          split at h
          · omega
          · obtain ⟨t, ht, hrun⟩ := ih _ 0 (le_refl _) (by intro k hk; omega) h
            refine ⟨t + 1, by omega, ?_⟩
            have e1 : start.i + (t + 1) * di = start.i + di + t * di := by ring
            have e2 : start.j + (t + 1) * dj = start.j + dj + t * dj := by ring
            rw [e1, e2]; exact hrun
    · simp at h

/-- A scan that returns `true` has found a line that begins on its path, at or after its
start. -/
theorem checkWinLine_sound_on_path (self : Player) (grid : Grid)
    (hl : 1 ≤ self.settings_.lineLen) (start : Cell) (di dj : Int)
    (h : self.checkWinLine grid start di dj = .ok true) :
    ∃ t : Int, 0 ≤ t ∧ RunAt grid self.mark_ (start.i + t * di) (start.j + t * dj)
      di dj self.settings_.lineLen.toNat := by
  obtain ⟨t, ht, hrun⟩ := checkWinLineLoop_sound_on_path self grid di dj hl _ start 0
    (le_refl _) (by intro k hk; omega) h
  exact ⟨t, by omega, hrun⟩

/-- A `for` loop that returns `true` did so in one of its remaining passes. -/
theorem forEveryLineLoop_true (self : Player) (grid : Grid) :
    ∀ n : Nat, self.forEveryLineLoop grid n = .ok true →
      ∃ pos : Int, self.settings_.size - n ≤ pos ∧ pos < self.settings_.size
        ∧ self.forEveryLineBody grid pos = .ok true := by
  intro n
  induction n with
  | zero => intro h; simp [Player.forEveryLineLoop] at h
  | succ n ih =>
    intro h
    unfold Player.forEveryLineLoop at h
    split at h
    · simp at h
    · rename_i hb
      exact ⟨_, by push_cast; omega, by omega, hb⟩
    · obtain ⟨pos, h1, h2, h3⟩ := ih h
      exact ⟨pos, by push_cast; omega, h2, h3⟩

/-- With a line length of at least 2, the down-left scan from the left column reads at
most the cell `(pos, 0)` and returns `false`. -/
theorem checkWinLine_left_column_antidiagonal (self : Player) (grid : Grid) (s : Nat)
    (hsize : self.settings_.size = s) (hsq : Square grid s)
    (hl : 2 ≤ self.settings_.lineLen) (pos : Int) :
    self.checkWinLine grid { i := pos, j := 0 } 1 (-1) = .ok false := by
  unfold Player.checkWinLine
  unfold Player.checkWinLineLoop
  by_cases hb : self.okBorders { i := pos, j := 0 } = true
  · have hb' := hb
    simp only [Player.okBorders, Bool.and_eq_true, decide_eq_true_eq] at hb'
    obtain ⟨c, hc⟩ := cellAt_of_square hsq (i := pos) (j := 0)
      (by omega) (by omega) (by omega) (by omega)
    simp only [hb, if_true, hc]
    have hcount : (if c = self.mark_ then (0 : Int) + 1 else 0) < self.settings_.lineLen := by
      split <;> omega
    generalize (if c = self.mark_ then (0 : Int) + 1 else 0) = count' at hcount
    have hge : ¬ count' ≥ self.settings_.lineLen := by omega
    simp only [hge, if_false]
    obtain ⟨f, hf⟩ : ∃ f, self.settings_.size.toNat = f + 1 :=
      ⟨self.settings_.size.toNat - 1, by omega⟩
    rw [hf]
    unfold Player.checkWinLineLoop
    have hout : self.okBorders { i := pos + 1, j := 0 + -1 } = false := by
      simp [Player.okBorders]
    simp only [hout]
    rfl
  · simp only [hb]
    rfl

/-- One step of monotonicity for a sequence of scans: if the head and the tail of a second
sequence return whenever those of the first do, with `true` for `true`, so does the whole
sequence. -/
theorem firstTrue_cons_mono {x y : Except Fault Bool} {xs ys : List (Except Fault Bool)}
    (hxy : ∀ b, x = .ok b → ∃ b', y = .ok b' ∧ (b = true → b' = true))
    (hrest : ∀ b, firstTrue xs = .ok b → ∃ b', firstTrue ys = .ok b' ∧ (b = true → b' = true)) :
    ∀ b, firstTrue (x :: xs) = .ok b →
      ∃ b', firstTrue (y :: ys) = .ok b' ∧ (b = true → b' = true) := by
  intro b hb
  cases x with
  | error e => simp [firstTrue] at hb
  | ok bx =>
    obtain ⟨by', hy, hby⟩ := hxy bx rfl
    subst hy
    cases bx with
    | true =>
      have : by' = true := hby rfl
      subst this
      exact ⟨true, rfl, fun _ => rfl⟩
    | false =>
      simp only [firstTrue] at hb
      cases by' with
      | true => exact ⟨true, rfl, fun _ => rfl⟩
      | false =>
        simp only [firstTrue]
        exact hrest b hb

/-- Monotonicity of the scan loop in the line length: with the same mark and size and a
line length that is not larger, the scan returns whenever the original one does, and
returns `true` when the original one does. -/
theorem checkWinLineLoop_mono (p q : Player) (grid : Grid) (di dj : Int)
    (hmark : p.mark_ = q.mark_) (hsz : p.settings_.size = q.settings_.size)
    (hle : q.settings_.lineLen ≤ p.settings_.lineLen) :
    ∀ (fuel : Nat) (start : Cell) (count : Int) (b : Bool),
      p.checkWinLineLoop grid di dj fuel start count = .ok b →
      ∃ b', q.checkWinLineLoop grid di dj fuel start count = .ok b'
        ∧ (b = true → b' = true) := by
  intro fuel
  induction fuel with
  | zero => intro start count b h; simp [Player.checkWinLineLoop] at h
  | succ fuel ih =>
    intro start count b h
    have hbord : q.okBorders start = p.okBorders start := by
      simp only [Player.okBorders, hsz]
    unfold Player.checkWinLineLoop at h ⊢
    rw [hbord, ← hmark]
    by_cases hb : p.okBorders start = true
    · simp only [hb, if_true] at h ⊢
      cases hc : cellAt grid start.i start.j with
      | none => rw [hc] at h; simp at h
      | some cur =>
        rw [hc] at h
        simp only at h ⊢
        generalize (if cur = p.mark_ then count + 1 else 0) = count' at h ⊢
        by_cases hq : count' ≥ q.settings_.lineLen
        · simp only [hq, if_true]
          exact ⟨true, rfl, fun _ => rfl⟩
        · have hp : ¬ count' ≥ p.settings_.lineLen := by omega
          simp only [hp, if_false] at h
          simp only [hq, if_false]
          exact ih _ _ b h
    · simp only [hb] at h ⊢
      exact ⟨b, h, id⟩

/-- Monotonicity of `forEveryLine`'s loop in the line length. -/
theorem forEveryLineLoop_mono (p q : Player) (grid : Grid)
    (hmark : p.mark_ = q.mark_) (hsz : p.settings_.size = q.settings_.size)
    (hle : q.settings_.lineLen ≤ p.settings_.lineLen) :
    ∀ (n : Nat) (b : Bool), p.forEveryLineLoop grid n = .ok b →
      ∃ b', q.forEveryLineLoop grid n = .ok b' ∧ (b = true → b' = true) := by
  have hscan : ∀ (start : Cell) (di dj : Int) (b : Bool),
      p.checkWinLine grid start di dj = .ok b →
      ∃ b', q.checkWinLine grid start di dj = .ok b' ∧ (b = true → b' = true) := by
    intro start di dj b h
    unfold Player.checkWinLine at h ⊢
    rw [← hsz]
    exact checkWinLineLoop_mono p q grid di dj hmark hsz hle _ _ _ b h
  have hbody : ∀ (pos : Int) (b : Bool), p.forEveryLineBody grid pos = .ok b →
      ∃ b', q.forEveryLineBody grid pos = .ok b' ∧ (b = true → b' = true) := by
    intro pos b h
    rw [forEveryLineBody_eq] at h ⊢
    exact firstTrue_cons_mono (hscan _ _ _) (firstTrue_cons_mono (hscan _ _ _)
      (firstTrue_cons_mono (hscan _ _ _) (firstTrue_cons_mono (hscan _ _ _)
      (firstTrue_cons_mono (hscan _ _ _) (firstTrue_cons_mono (hscan _ _ _)
      (fun b hb => ⟨b, hb, id⟩)))))) b h
  intro n
  induction n with
  | zero => intro b h; exact ⟨b, h, id⟩
  | succ n ih =>
    intro b h
    unfold Player.forEveryLineLoop at h ⊢
    rw [← hsz]
    cases hp : p.forEveryLineBody grid (p.settings_.size - ((n : Int) + 1)) with
    | error e => rw [hp] at h; simp at h
    | ok bp =>
      rw [hp] at h
      obtain ⟨bq, hq, hpq⟩ := hbody _ bp hp
      rw [hq]
      cases bp with
      | true =>
        have : bq = true := hpq rfl
        subst this
        exact ⟨true, rfl, fun _ => rfl⟩
      | false =>
        simp only at h
        cases bq with
        | true => exact ⟨true, rfl, fun _ => rfl⟩
        | false => exact ih b h

/-- Every cell that a scan reads has passed `okBorders`. -/
theorem checkWinLineReads_okBorders (self : Player) (grid : Grid) (di dj : Int) :
    ∀ (fuel : Nat) (start : Cell) (count : Int),
      ∀ c ∈ self.checkWinLineReads grid di dj fuel start count, self.okBorders c = true := by
  intro fuel
  induction fuel with
  | zero => intro start count c hc; simp [Player.checkWinLineReads] at hc
  | succ fuel ih =>
    intro start count c hc
    unfold Player.checkWinLineReads at hc
    by_cases hb : self.okBorders start = true
    · simp only [hb, if_true, List.mem_cons] at hc
      rcases hc with rfl | hc
      · exact hb
      · cases hcell : cellAt grid start.i start.j with
        | none => rw [hcell] at hc; simp at hc
        | some cur =>
          rw [hcell] at hc
          simp only at hc
          generalize (if cur = self.mark_ then count + 1 else 0) = count' at hc
          by_cases hge : count' ≥ self.settings_.lineLen
          · simp [hge] at hc
          · simp only [hge, if_false] at hc
            exact ih _ _ c hc
    · simp only [hb] at hc
      simp at hc

/-- A scan that advances by one row per step reads at most `size - start.i` cells, and a
scan that advances by one column per step at most `size - start.j`. -/
theorem checkWinLineReads_length (self : Player) (grid : Grid) (di dj : Int) :
    ∀ (fuel : Nat) (start : Cell) (count : Int),
      (di = 1 → (self.checkWinLineReads grid di dj fuel start count).length
          ≤ (self.settings_.size - start.i).toNat)
        ∧ (dj = 1 → (self.checkWinLineReads grid di dj fuel start count).length
          ≤ (self.settings_.size - start.j).toNat) := by
  intro fuel
  induction fuel with
  | zero => intro start count; simp [Player.checkWinLineReads]
  | succ fuel ih =>
    intro start count
    unfold Player.checkWinLineReads
    by_cases hb : self.okBorders start = true
    · have hb' := hb
      simp only [Player.okBorders, Bool.and_eq_true, decide_eq_true_eq] at hb'
      simp only [hb, if_true, List.length_cons]
      cases hcell : cellAt grid start.i start.j with
      | none => simp only [List.length_nil]; constructor <;> intro _ <;> omega
      | some cur =>
        simp only
        generalize (if cur = self.mark_ then count + 1 else 0) = count'
        by_cases hge : count' ≥ self.settings_.lineLen
        · simp only [hge, if_true, List.length_nil]; constructor <;> intro _ <;> omega
        · simp only [hge, if_false]
          have := ih { i := start.i + di, j := start.j + dj } count'
          constructor
          · intro h1
            have h := this.1 h1
            simp only [] at h
            subst h1
            omega
          · intro h1
            have h := this.2 h1
            simp only [] at h
            subst h1
            omega
    · simp only [hb]
      simp

/-- The scan loop indexes outside the grid exactly when one of the cells it reads lies
outside the grid. -/
theorem checkWinLineLoop_outOfBounds_iff (self : Player) (grid : Grid) (di dj : Int) :
    ∀ (fuel : Nat) (start : Cell) (count : Int),
      self.checkWinLineLoop grid di dj fuel start count = .error .outOfBounds
        ↔ ∃ c ∈ self.checkWinLineReads grid di dj fuel start count,
            cellAt grid c.i c.j = none := by
  intro fuel
  induction fuel with
  | zero => intro start count; simp [Player.checkWinLineLoop, Player.checkWinLineReads]
  | succ fuel ih =>
    intro start count
    unfold Player.checkWinLineLoop Player.checkWinLineReads
    by_cases hb : self.okBorders start = true
    · simp only [hb, if_true]
      cases hcell : cellAt grid start.i start.j with
      | none => simp [hcell]
      | some cur =>
        simp only
        by_cases hge : (if cur = self.mark_ then count + 1 else 0) ≥ self.settings_.lineLen
        · simp [hge, hcell]
        · simp only [hge, if_false, List.mem_cons, exists_eq_or_imp, hcell]
          rw [ih]
          simp
    · simp [hb]

/-! ## Grids, moves and the game loop: shared lemmas -/

/-- Writing a cell keeps the dimensions of the grid. -/
theorem setCell_square {grid : Grid} {s : Nat} (hsq : Square grid s) (i j : Nat) (c : Char) :
    Square (setCell grid i j c) s := by
  unfold setCell
  cases hrow : grid[i]? with
  | none => exact hsq
  | some row =>
    refine ⟨by simp [hsq.1], ?_⟩
    intro r hr
    rcases List.mem_or_eq_of_mem_set hr with h | h
    · exact hsq.2 r h
    · subst h
      simp [hsq.2 row (List.getElem?_mem hrow)]

/-- Replacing one row changes a row-wise sum by the difference of the two rows. -/
theorem sum_map_set (f : List Char → Nat) :
    ∀ (l : List (List Char)) (i : Nat) (a x : List Char), l[i]? = some x →
      ((l.set i a).map f).sum + f x = (l.map f).sum + f a := by
  intro l
  induction l with
  | nil => intro i a x h; simp at h
  | cons y ys ih =>
    intro i a x h
    cases i with
    | zero =>
      simp at h
      subst h
      simp only [List.set, List.map_cons, List.sum_cons]
      omega
    | succ i =>
      simp at h
      have := ih i a x h
      simp only [List.set, List.map_cons, List.sum_cons]
      omega

/-- Overwriting an Empty cell of a row with a mark removes one Empty cell. -/
theorem count_set_empty {row : List Char} {j : Nat} {c : Char}
    (hcell : row[j]? = some DEFAULT) (hc : c ≠ DEFAULT) :
    (row.set j c).count DEFAULT + 1 = row.count DEFAULT := by
  obtain ⟨hj, hv⟩ := List.getElem?_eq_some.1 hcell
  have hmem : DEFAULT ∈ row := List.getElem?_mem hcell
  have hpos : 0 < row.count DEFAULT := List.count_pos_iff.2 hmem
  rw [List.count_set _ _ _ _ hj]
  simp [hv, hc]
  omega

/-- Overwriting an Empty cell of the grid with a mark removes one Empty cell. -/
theorem countEmpty_setCell {grid : Grid} {i j : Nat} {c : Char}
    (hempty : emptyAt grid i j) (hc : c ≠ DEFAULT) :
    countEmpty (setCell grid i j c) + 1 = countEmpty grid := by
  obtain ⟨row, hrow, hcell⟩ := hempty
  have h1 := sum_map_set (List.count DEFAULT) grid i (row.set j c) row hrow
  have h2 := count_set_empty hcell hc
  simp only [countEmpty, setCell, hrow]
  omega

/-- After a mark is written at `(i, j)` the Empty cells are old ones other than `(i, j)`. -/
theorem emptyAt_of_setCell {grid : Grid} {i j i' j' : Nat} {c : Char} (hc : c ≠ DEFAULT)
    (h : emptyAt (setCell grid i j c) i' j') :
    emptyAt grid i' j' ∧ (i', j') ≠ (i, j) := by
  obtain ⟨row', hrow', hcell'⟩ := h
  unfold setCell at hrow'
  cases hrow : grid[i]? with
  | none =>
    rw [hrow] at hrow'
    refine ⟨⟨row', hrow', hcell'⟩, ?_⟩
    intro heq
    simp only [Prod.mk.injEq] at heq
    rw [heq.1, hrow] at hrow'
    simp at hrow'
  | some row =>
    rw [hrow] at hrow'
    simp only at hrow'
    by_cases hi : i = i'
    · subst hi
      have hlt : i < grid.length := (List.getElem?_eq_some.1 hrow).1
      rw [List.getElem?_set_self hlt] at hrow'
      simp only [Option.some.injEq] at hrow'
      subst hrow'
      by_cases hj : j = j'
      · subst hj
        have hjl : j < row.length := by
          by_contra hn
          have : (row.set j c)[j]? = none := List.getElem?_eq_none (by simp; omega)
          rw [this] at hcell'
          simp at hcell'
        rw [List.getElem?_set_self hjl] at hcell'
        simp only [Option.some.injEq] at hcell'
        exact absurd hcell' hc
      · rw [List.getElem?_set_ne hj] at hcell'
        refine ⟨⟨row, hrow, hcell'⟩, ?_⟩
        intro heq
        simp only [Prod.mk.injEq] at heq
        exact hj heq.2.symm
    · rw [List.getElem?_set_ne hi] at hrow'
      refine ⟨⟨row', hrow', hcell'⟩, ?_⟩
      intro heq
      simp only [Prod.mk.injEq] at heq
      exact hi heq.1.symm

/-- The check `validMove` accepts exactly the Empty cells of the grid. -/
theorem validMove_eq_true_iff {grid : Grid} {i j : Nat} :
    Player.validMove grid i j = .ok true ↔ emptyAt grid i j := by
  unfold Player.validMove emptyAt
  cases hrow : grid[i]? with
  | none => simp
  | some row =>
    cases hcell : row[j]? with
    | none => simp [hcell]
    | some c => simp [hcell, DEFAULT]

/-- The input loop only accepts an Empty cell. -/
theorem readMove_ok {grid : Grid} :
    ∀ {input : Input} {i j : Nat} {rest : Input},
      HumanPlayer.readMove grid input = .ok ((i, j), rest) → emptyAt grid i j := by
  intro input
  induction input with
  | nil => intro i j rest h; simp [HumanPlayer.readMove] at h
  | cons p ps ih =>
    intro i j rest h
    obtain ⟨a, b⟩ := p
    unfold HumanPlayer.readMove at h
    split at h
    · simp at h
    · rename_i hv
      simp only [Except.ok.injEq, Prod.mk.injEq] at h
      obtain ⟨⟨rfl, rfl⟩, _⟩ := h
      exact validMove_eq_true_iff.1 hv
    · exact ih h

/-- The move of a human player once the input loop and the detector have returned. -/
theorem humanMove_of_readMove (self : Player) {grid : Grid} {input rest : Input} {i j : Nat}
    {b : Bool} (hread : HumanPlayer.readMove grid input = .ok ((i, j), rest))
    (hwin : self.checkWin (setCell grid i j self.mark_) = .ok b) :
    HumanPlayer.move self grid input
      = .ok (if b then (if self.isFirst_ then Result.FIRST else Result.SECOND)
              else Result.NOTHING, setCell grid i j self.mark_, rest) := by
  unfold HumanPlayer.move
  simp only [hread, hwin]
  cases b <;> rfl

/-- A human move that returns has written the player's mark into an Empty cell. -/
theorem humanMove_ok (self : Player) {grid grid' : Grid} {input rest : Input} {r : Result}
    (h : HumanPlayer.move self grid input = .ok (r, grid', rest)) :
    ∃ i j, HumanPlayer.readMove grid input = .ok ((i, j), rest)
      ∧ emptyAt grid i j ∧ grid' = setCell grid i j self.mark_ := by
  unfold HumanPlayer.move at h
  split at h
  · simp at h
  · rename_i i j rest' hread
    have hempty := readMove_ok hread
    simp only at h
    cases hwin : self.checkWin (setCell grid i j self.mark_) with
    | error e => rw [hwin] at h; simp at h
    | ok b =>
      rw [hwin] at h
      cases b <;>
      · simp only [Except.ok.injEq, Prod.mk.injEq] at h
        obtain ⟨_, rfl, rfl⟩ := h
        exact ⟨i, j, hread, hempty, rfl⟩

/-- A human move that returns has filled exactly one Empty cell. -/
theorem humanMove_countEmpty (self : Player) (hm : self.mark_ ≠ DEFAULT) {grid grid' : Grid}
    {input rest : Input} {r : Result}
    (h : HumanPlayer.move self grid input = .ok (r, grid', rest)) :
    countEmpty grid' + 1 = countEmpty grid := by
  obtain ⟨i, j, _, hempty, rfl⟩ := humanMove_ok self h
  exact countEmpty_setCell hempty hm

/-- A grid with a positive number of Empty cells has an Empty cell. -/
theorem exists_emptyAt_of_countEmpty_pos :
    ∀ {grid : Grid}, 0 < countEmpty grid → ∃ i j, emptyAt grid i j := by
  intro grid
  induction grid with
  | nil => intro h; simp [countEmpty] at h
  | cons row rows ih =>
    intro h
    by_cases hrow : 0 < row.count DEFAULT
    · have hmem : DEFAULT ∈ row := List.count_pos_iff.1 hrow
      obtain ⟨j, hj, hv⟩ := List.getElem_of_mem hmem
      refine ⟨0, j, row, by simp, ?_⟩
      rw [List.getElem?_eq_getElem hj, hv]
    · have h' : 0 < countEmpty rows := by
        simp only [countEmpty, List.map_cons, List.sum_cons] at h ⊢
        omega
      obtain ⟨i, j, row', hrow', hcell'⟩ := ih h'
      exact ⟨i + 1, j, row', by simpa using hrow', hcell'⟩

/-- On input that stays inside the grid and names every Empty cell, the input loop accepts
a cell, and the unread input still names every other Empty cell. -/
theorem readMove_spec {grid : Grid} {s : Nat} (hsq : Square grid s) :
    ∀ {input : Input}, InBounds s input → CoversEmpty grid input →
      (∃ i j, emptyAt grid i j) →
      ∃ i j rest, HumanPlayer.readMove grid input = .ok ((i, j), rest)
        ∧ emptyAt grid i j ∧ InBounds s rest
        ∧ (∀ i' j', emptyAt grid i' j' → (i', j') ≠ (i, j) → (i', j') ∈ rest) := by
  intro input
  induction input with
  | nil =>
    intro _ hcov ⟨i, j, he⟩
    have := hcov i j he
    simp at this
  | cons p ps ih =>
    intro hin hcov hne
    obtain ⟨a, b⟩ := p
    have hab := hin (a, b) (List.mem_cons_self _ _)
    have hin' : InBounds s ps := fun q hq => hin q (List.mem_cons_of_mem _ hq)
    have ha : a < grid.length := by have := hsq.1; omega
    have hrow : grid[a]? = some grid[a] := List.getElem?_eq_getElem ha
    have hb : b < (grid[a]).length := by
      have := hsq.2 _ (List.getElem_mem ha); omega
    have hcell : (grid[a])[b]? = some (grid[a])[b] := List.getElem?_eq_getElem hb
    by_cases hd : (grid[a])[b] = DEFAULT
    · have hv : Player.validMove grid a b = .ok true :=
        validMove_eq_true_iff.2 ⟨_, hrow, by rw [hcell, hd]⟩
      refine ⟨a, b, ps, by simp [HumanPlayer.readMove, hv], validMove_eq_true_iff.1 hv,
        hin', ?_⟩
      intro i' j' he hne'
      have := hcov i' j' he
      simp only [List.mem_cons] at this
      rcases this with h | h
      · exact absurd h hne'
      · exact h
    · have hv : Player.validMove grid a b = .ok false := by
        simp [Player.validMove, hrow, hcell, hd]
      have hcov' : CoversEmpty grid ps := by
        intro i' j' he
        have := hcov i' j' he
        simp only [List.mem_cons] at this
        rcases this with h | h
        · simp only [Prod.mk.injEq] at h
          obtain ⟨rfl, rfl⟩ := h
          obtain ⟨row, hr, hc⟩ := he
          rw [hrow] at hr
          simp only [Option.some.injEq] at hr
          subst hr
          rw [hcell] at hc
          simp only [Option.some.injEq] at hc
          exact absurd hc hd
        · exact h
      obtain ⟨i, j, rest, hr, he, hin'', hrest⟩ := ih hin' hcov' hne
      exact ⟨i, j, rest, by simp [HumanPlayer.readMove, hv, hr], he, hin'', hrest⟩

/-- On such input a human move returns, fills one cell, and leaves input of the same kind. -/
theorem humanMove_spec (self : Player) {grid : Grid} {s : Nat} {input : Input}
    (hsize : self.settings_.size = s) (hm : self.mark_ ≠ DEFAULT) (hsq : Square grid s)
    (hin : InBounds s input) (hcov : CoversEmpty grid input) (hpos : 0 < countEmpty grid) :
    ∃ r grid' rest, HumanPlayer.move self grid input = .ok (r, grid', rest)
      ∧ Square grid' s ∧ countEmpty grid' + 1 = countEmpty grid
      ∧ InBounds s rest ∧ CoversEmpty grid' rest := by
  obtain ⟨i, j, rest, hread, hempty, hin', hrest⟩ :=
    readMove_spec hsq hin hcov (exists_emptyAt_of_countEmpty_pos hpos)
  have hsq' := setCell_square hsq i j self.mark_
  obtain ⟨b, hb⟩ := checkWin_total self _ s hsize hsq'
  refine ⟨_, _, _, humanMove_of_readMove self hread hb, hsq',
    countEmpty_setCell hempty hm, hin', ?_⟩
  intro i' j' he
  obtain ⟨he', hne⟩ := emptyAt_of_setCell hm he
  exact hrest i' j' he' hne

/-- The decremented counter is a `size_t` value. -/
theorem decr_lt (c : Nat) : decr c < SIZE_T_RANGE := by
  unfold decr SIZE_T_RANGE; omega

/-- Decrementing a positive counter does not wrap. -/
theorem decr_of_pos {c : Nat} (h0 : 0 < c) (hc : c < SIZE_T_RANGE) : decr c = c - 1 := by
  unfold decr SIZE_T_RANGE at *; omega

/-- The calls of `finish` in a concatenation of event lists. -/
theorem finishCalls_append (xs ys : List Event) :
    finishCalls (xs ++ ys) = finishCalls xs ++ finishCalls ys := by
  induction xs with
  | nil => rfl
  | cons x xs ih =>
    cases x <;> simp [finishCalls, ih]

/-- The loop when the first player's move does not return. -/
theorem gameLoop_first_fault {σ : Type} (first second : PlayerPtr σ) (fuel : Nat) (grid : Grid)
    (c : Nat) (w : σ) (e : Fault) (hm1 : first.move grid w = .error e) :
    gameLoop first second (fuel + 1) grid c w = ([], .error e) := by
  simp only [gameLoop, hm1]

/-- The loop when the first player's move returns something other than `NOTHING`. -/
theorem gameLoop_first_decisive {σ : Type} (first second : PlayerPtr σ) (fuel : Nat)
    (grid : Grid) (c : Nat) (w : σ) (r1 : Result) (g1 : Grid) (w1 : σ)
    (hm1 : first.move grid w = .ok (r1, g1, w1)) (h1 : r1 ≠ Result.NOTHING) :
    gameLoop first second (fuel + 1) grid c w
      = emit [Event.moved true r1 g1 (decr c)] (finish r1 g1) := by
  simp only [gameLoop, hm1, h1, ne_eq, not_false_eq_true, if_true]

/-- The loop when the first player's move brings the counter to zero. -/
theorem gameLoop_first_draw {σ : Type} (first second : PlayerPtr σ) (fuel : Nat)
    (grid : Grid) (c : Nat) (w : σ) (g1 : Grid) (w1 : σ)
    (hm1 : first.move grid w = .ok (Result.NOTHING, g1, w1)) (hz : decr c = 0) :
    gameLoop first second (fuel + 1) grid c w
      = emit [Event.moved true Result.NOTHING g1 0] (finish Result.DRAW g1) := by
  simp only [gameLoop, hm1, hz, ne_eq, not_true_eq_false, if_false, if_true]

/-- The loop when the second player's move does not return. -/
theorem gameLoop_second_fault {σ : Type} (first second : PlayerPtr σ) (fuel : Nat)
    (grid : Grid) (c : Nat) (w : σ) (g1 : Grid) (w1 : σ) (e : Fault)
    (hm1 : first.move grid w = .ok (Result.NOTHING, g1, w1)) (hz : decr c ≠ 0)
    (hm2 : second.move g1 w1 = .error e) :
    gameLoop first second (fuel + 1) grid c w
      = emit [Event.moved true Result.NOTHING g1 (decr c)] ([], .error e) := by
  simp only [gameLoop, hm1, hz, hm2, ne_eq, not_true_eq_false, if_false]

/-- The loop when the second player's move brings the counter to zero. -/
theorem gameLoop_second_draw {σ : Type} (first second : PlayerPtr σ) (fuel : Nat)
    (grid : Grid) (c : Nat) (w : σ) (g1 : Grid) (w1 : σ) (r2 : Result) (g2 : Grid) (w2 : σ)
    (hm1 : first.move grid w = .ok (Result.NOTHING, g1, w1)) (hz : decr c ≠ 0)
    (hm2 : second.move g1 w1 = .ok (r2, g2, w2)) (hz2 : decr (decr c) = 0) :
    gameLoop first second (fuel + 1) grid c w
      = emit [Event.moved true Result.NOTHING g1 (decr c), Event.moved false r2 g2 0]
          (finish Result.DRAW g2) := by
  simp only [gameLoop, hm1, hz, hm2, hz2, ne_eq, not_true_eq_false, if_false, if_true, emit,
    List.cons_append, List.nil_append]

/-- The loop when both moves return `NOTHING` and the counter is not zero. -/
theorem gameLoop_second_continue {σ : Type} (first second : PlayerPtr σ) (fuel : Nat)
    (grid : Grid) (c : Nat) (w : σ) (g1 : Grid) (w1 : σ) (g2 : Grid) (w2 : σ)
    (hm1 : first.move grid w = .ok (Result.NOTHING, g1, w1)) (hz : decr c ≠ 0)
    (hm2 : second.move g1 w1 = .ok (Result.NOTHING, g2, w2)) (hz2 : decr (decr c) ≠ 0) :
    gameLoop first second (fuel + 1) grid c w
      = emit [Event.moved true Result.NOTHING g1 (decr c),
              Event.moved false Result.NOTHING g2 (decr (decr c))]
          (gameLoop first second fuel g2 (decr (decr c)) w2) := by
  simp only [gameLoop, hm1, hz, hm2, hz2, ne_eq, not_true_eq_false, if_false, if_true, emit,
    List.cons_append, List.nil_append]

/-- The loop when the second player's move returns something other than `NOTHING` and
the counter is not zero. -/
theorem gameLoop_second_decisive {σ : Type} (first second : PlayerPtr σ) (fuel : Nat)
    (grid : Grid) (c : Nat) (w : σ) (g1 : Grid) (w1 : σ) (r2 : Result) (g2 : Grid) (w2 : σ)
    (hm1 : first.move grid w = .ok (Result.NOTHING, g1, w1)) (hz : decr c ≠ 0)
    (hm2 : second.move g1 w1 = .ok (r2, g2, w2)) (hz2 : decr (decr c) ≠ 0)
    (h2 : r2 ≠ Result.NOTHING) :
    gameLoop first second (fuel + 1) grid c w
      = emit [Event.moved true Result.NOTHING g1 (decr c),
              Event.moved false r2 g2 (decr (decr c))]
          (finish r2 g2) := by
  simp only [gameLoop, hm1, hz, hm2, hz2, h2, ne_eq, not_true_eq_false, if_false, emit,
    List.cons_append, List.nil_append]

/-- The calls of the loop when the first player's move does not return. -/
theorem moveCalls_first_fault {σ : Type} (first second : PlayerPtr σ) (fuel : Nat)
    (grid : Grid) (c : Nat) (w : σ) (e : Fault) (hm1 : first.move grid w = .error e) :
    moveCalls first second (fuel + 1) grid c w = [.error e] := by
  simp only [moveCalls, hm1]

/-- The calls of the loop when the first player's move returns something other than
`NOTHING`. -/
theorem moveCalls_first_decisive {σ : Type} (first second : PlayerPtr σ) (fuel : Nat)
    (grid : Grid) (c : Nat) (w : σ) (r1 : Result) (g1 : Grid) (w1 : σ)
    (hm1 : first.move grid w = .ok (r1, g1, w1)) (h1 : r1 ≠ Result.NOTHING) :
    moveCalls first second (fuel + 1) grid c w = [.ok (r1, g1, w1)] := by
  simp only [moveCalls, hm1, h1, ne_eq, not_false_eq_true, if_true]

/-- The calls of the loop when the first player's move brings the counter to zero. -/
theorem moveCalls_first_draw {σ : Type} (first second : PlayerPtr σ) (fuel : Nat)
    (grid : Grid) (c : Nat) (w : σ) (g1 : Grid) (w1 : σ)
    (hm1 : first.move grid w = .ok (Result.NOTHING, g1, w1)) (hz : decr c = 0) :
    moveCalls first second (fuel + 1) grid c w = [.ok (Result.NOTHING, g1, w1)] := by
  simp only [moveCalls, hm1, hz, ne_eq, not_true_eq_false, if_false, if_true]

/-- The calls of the loop when the second player's move does not return. -/
theorem moveCalls_second_fault {σ : Type} (first second : PlayerPtr σ) (fuel : Nat)
    (grid : Grid) (c : Nat) (w : σ) (g1 : Grid) (w1 : σ) (e : Fault)
    (hm1 : first.move grid w = .ok (Result.NOTHING, g1, w1)) (hz : decr c ≠ 0)
    (hm2 : second.move g1 w1 = .error e) :
    moveCalls first second (fuel + 1) grid c w
      = [.ok (Result.NOTHING, g1, w1), .error e] := by
  simp only [moveCalls, hm1, hz, hm2, ne_eq, not_true_eq_false, if_false]

/-- The calls of the loop when the second player's move ends the iteration: the counter
is at zero or the move returned something other than `NOTHING`. -/
theorem moveCalls_second_last {σ : Type} (first second : PlayerPtr σ) (fuel : Nat)
    (grid : Grid) (c : Nat) (w : σ) (g1 : Grid) (w1 : σ) (r2 : Result) (g2 : Grid) (w2 : σ)
    (hm1 : first.move grid w = .ok (Result.NOTHING, g1, w1)) (hz : decr c ≠ 0)
    (hm2 : second.move g1 w1 = .ok (r2, g2, w2))
    (hlast : decr (decr c) = 0 ∨ r2 ≠ Result.NOTHING) :
    moveCalls first second (fuel + 1) grid c w
      = [.ok (Result.NOTHING, g1, w1), .ok (r2, g2, w2)] := by
  by_cases hz2 : decr (decr c) = 0
  · simp only [moveCalls, hm1, hz, hm2, hz2, ne_eq, not_true_eq_false, if_false, if_true]
  · have h2 : r2 ≠ Result.NOTHING := by
      rcases hlast with h | h
      · exact absurd h hz2
      · exact h
    simp only [moveCalls, hm1, hz, hm2, hz2, h2, ne_eq, not_true_eq_false, if_false]

/-- The calls of the loop when both moves return `NOTHING` and the counter is not zero. -/
theorem moveCalls_second_continue {σ : Type} (first second : PlayerPtr σ) (fuel : Nat)
    (grid : Grid) (c : Nat) (w : σ) (g1 : Grid) (w1 : σ) (g2 : Grid) (w2 : σ)
    (hm1 : first.move grid w = .ok (Result.NOTHING, g1, w1)) (hz : decr c ≠ 0)
    (hm2 : second.move g1 w1 = .ok (Result.NOTHING, g2, w2)) (hz2 : decr (decr c) ≠ 0) :
    moveCalls first second (fuel + 1) grid c w
      = .ok (Result.NOTHING, g1, w1) :: .ok (Result.NOTHING, g2, w2)
          :: moveCalls first second fuel g2 (decr (decr c)) w2 := by
  simp only [moveCalls, hm1, hz, hm2, hz2, ne_eq, not_true_eq_false, if_false, if_true]

/-- Every recorded call is a call of the first or of the second player's `move`; so with
players whose `move` returns in every state, every recorded call returned. -/
theorem moveCalls_mem {σ : Type} (first second : PlayerPtr σ) :
    ∀ (fuel : Nat) (grid : Grid) (c : Nat) (w : σ),
      ∀ x ∈ moveCalls first second fuel grid c w,
        ∃ g w', x = first.move g w' ∨ x = second.move g w' := by
  intro fuel
  induction fuel with
  | zero => intro grid c w x hx; simp [moveCalls] at hx
  | succ fuel ih =>
    intro grid c w x hx
    cases hm1 : first.move grid w with
    | error e =>
      rw [moveCalls_first_fault _ _ fuel grid c w e hm1] at hx
      exact ⟨grid, w, Or.inl (by rw [hm1]; simpa using hx)⟩
    | ok res1 =>
      obtain ⟨r1, g1, w1⟩ := res1
      by_cases h1 : r1 = Result.NOTHING
      · subst h1
        by_cases hz : decr c = 0
        · rw [moveCalls_first_draw _ _ fuel grid c w g1 w1 hm1 hz] at hx
          exact ⟨grid, w, Or.inl (by rw [hm1]; simpa using hx)⟩
        · cases hm2 : second.move g1 w1 with
          | error e =>
            rw [moveCalls_second_fault _ _ fuel grid c w g1 w1 e hm1 hz hm2] at hx
            simp only [List.mem_cons, List.mem_singleton, List.not_mem_nil, or_false] at hx
            rcases hx with rfl | rfl
            · exact ⟨grid, w, Or.inl hm1.symm⟩
            · exact ⟨g1, w1, Or.inr hm2.symm⟩
          | ok res2 =>
            obtain ⟨r2, g2, w2⟩ := res2
            by_cases hlast : decr (decr c) = 0 ∨ r2 ≠ Result.NOTHING
            · rw [moveCalls_second_last _ _ fuel grid c w g1 w1 r2 g2 w2 hm1 hz hm2 hlast]
                at hx
              simp only [List.mem_cons, List.mem_singleton, List.not_mem_nil, or_false] at hx
              rcases hx with rfl | rfl
              · exact ⟨grid, w, Or.inl hm1.symm⟩
              · exact ⟨g1, w1, Or.inr hm2.symm⟩
            · have hz2 : decr (decr c) ≠ 0 := fun h => hlast (Or.inl h)
              have h2 : r2 = Result.NOTHING := by
                by_contra h; exact hlast (Or.inr h)
              subst h2
              rw [moveCalls_second_continue _ _ fuel grid c w g1 w1 g2 w2 hm1 hz hm2 hz2]
                at hx
              simp only [List.mem_cons] at hx
              rcases hx with rfl | rfl | hx
              · exact ⟨grid, w, Or.inl hm1.symm⟩
              · exact ⟨g1, w1, Or.inr hm2.symm⟩
              · exact ih _ _ _ x hx
      · rw [moveCalls_first_decisive _ _ fuel grid c w r1 g1 w1 hm1 h1] at hx
        exact ⟨grid, w, Or.inl (by rw [hm1]; simpa using hx)⟩

/-- A call that returned `NOTHING`, `FIRST` or `SECOND`, spelled out. -/
theorem callReturnedPlayerResult_ok {σ : Type} {r : Result} {g : Grid} {w : σ}
    (h : callReturnedPlayerResult (Except.ok (r, g, w) : Except Fault (Result × Grid × σ))
      = true) :
    r = Result.NOTHING ∨ r = Result.FIRST ∨ r = Result.SECOND := by
  cases r <;> simp [callReturnedPlayerResult] at h ⊢

/-- In a loop all of whose calls of `move` return `NOTHING`, `FIRST` or `SECOND`, with
fuel for the remaining decrements, the loop ends normally after exactly one call of
`finish`, with `FIRST`, `SECOND` or `DRAW`. -/
theorem gameLoop_finishes_of_calls {σ : Type} (first second : PlayerPtr σ) :
    ∀ (fuel : Nat) (grid : Grid) (c : Nat) (w : σ), decr c < 2 * fuel →
      (∀ x ∈ moveCalls first second fuel grid c w, callReturnedPlayerResult x = true) →
      (gameLoop first second fuel grid c w).2 = .ok ()
        ∧ ∃ r, finishCalls (gameLoop first second fuel grid c w).1 = [r]
          ∧ (r = Result.FIRST ∨ r = Result.SECOND ∨ r = Result.DRAW) := by
  intro fuel
  induction fuel with
  | zero => intro _ _ _ h; omega
  | succ fuel ih =>
    intro grid c w hf hcalls
    cases hm1 : first.move grid w with
    | error e =>
      rw [moveCalls_first_fault _ _ fuel grid c w e hm1] at hcalls
      have := hcalls _ (List.mem_singleton.2 rfl)
      simp [callReturnedPlayerResult] at this
    | ok res1 =>
      obtain ⟨r1, g1, w1⟩ := res1
      by_cases h1 : r1 = Result.NOTHING
      · subst h1
        by_cases hz : decr c = 0
        · rw [gameLoop_first_draw first second fuel grid c w g1 w1 hm1 hz]
          exact ⟨rfl, Result.DRAW, rfl, Or.inr (Or.inr rfl)⟩
        · cases hm2 : second.move g1 w1 with
          | error e =>
            rw [moveCalls_second_fault _ _ fuel grid c w g1 w1 e hm1 hz hm2] at hcalls
            have := hcalls (.error e) (by simp)
            simp [callReturnedPlayerResult] at this
          | ok res2 =>
            obtain ⟨r2, g2, w2⟩ := res2
            by_cases hz2 : decr (decr c) = 0
            · rw [gameLoop_second_draw first second fuel grid c w g1 w1 r2 g2 w2 hm1 hz hm2
                hz2]
              exact ⟨rfl, Result.DRAW, rfl, Or.inr (Or.inr rfl)⟩
            · have hd : decr (decr c) = decr c - 1 := decr_of_pos (by omega) (decr_lt c)
              by_cases h2 : r2 = Result.NOTHING
              · subst h2
                rw [moveCalls_second_continue _ _ fuel grid c w g1 w1 g2 w2 hm1 hz hm2 hz2]
                  at hcalls
                obtain ⟨hok, r, hr, hrr⟩ := ih g2 (decr (decr c)) w2 (by
                  rw [decr_of_pos (by omega) (decr_lt _)]; omega)
                  (fun x hx => hcalls x (List.mem_cons_of_mem _ (List.mem_cons_of_mem _ hx)))
                rw [gameLoop_second_continue first second fuel grid c w g1 w1 g2 w2 hm1 hz
                  hm2 hz2]
                exact ⟨hok, r, hr, hrr⟩
              · rw [moveCalls_second_last _ _ fuel grid c w g1 w1 r2 g2 w2 hm1 hz hm2
                  (Or.inr h2)] at hcalls
                have hr2 := callReturnedPlayerResult_ok
                  (hcalls (.ok (r2, g2, w2)) (by simp))
                rw [gameLoop_second_decisive first second fuel grid c w g1 w1 r2 g2 w2 hm1
                  hz hm2 hz2 h2]
                rcases hr2 with h | h | h
                · exact absurd h h2
                · subst h; exact ⟨rfl, Result.FIRST, rfl, Or.inl rfl⟩
                · subst h; exact ⟨rfl, Result.SECOND, rfl, Or.inr (Or.inl rfl)⟩
      · rw [moveCalls_first_decisive _ _ fuel grid c w r1 g1 w1 hm1 h1] at hcalls
        have hr1 := callReturnedPlayerResult_ok (hcalls _ (List.mem_singleton.2 rfl))
        rw [gameLoop_first_decisive first second fuel grid c w r1 g1 w1 hm1 h1]
        rcases hr1 with h | h | h
        · exact absurd h h1
        · subst h; exact ⟨rfl, Result.FIRST, rfl, Or.inl rfl⟩
        · subst h; exact ⟨rfl, Result.SECOND, rfl, Or.inr (Or.inl rfl)⟩

/-- Between two human players, a loop that starts with the counter equal to the number of
Empty cells keeps it so after every move. -/
theorem humanLoop_counter (p1 p2 : Player) (hp1 : p1.mark_ ≠ DEFAULT)
    (hp2 : p2.mark_ ≠ DEFAULT) :
    ∀ (fuel : Nat) (grid : Grid) (c : Nat) (input : Input),
      c = countEmpty grid → c < SIZE_T_RANGE →
      ∀ b r g n, Event.moved b r g n
          ∈ (gameLoop { move := HumanPlayer.move p1 } { move := HumanPlayer.move p2 }
              fuel grid c input).1 →
        n = countEmpty g := by
  intro fuel
  induction fuel with
  | zero => intro grid c input _ _ b r g n h; simp [gameLoop] at h
  | succ fuel ih =>
    intro grid c input hc hlt b r g n hmem
    cases hm1 : HumanPlayer.move p1 grid input with
    | error e =>
      rw [gameLoop_first_fault _ _ fuel grid c input e hm1] at hmem
      simp at hmem
    | ok res1 =>
      obtain ⟨r1, g1, w1⟩ := res1
      have hc1 := humanMove_countEmpty p1 hp1 hm1
      have hd1 : decr c = countEmpty g1 := by
        rw [decr_of_pos (by omega) hlt]; omega
      by_cases h1 : r1 = Result.NOTHING
      · subst h1
        by_cases hz : decr c = 0
        · rw [gameLoop_first_draw _ _ fuel grid c input g1 w1 hm1 hz] at hmem
          simp only [emit, finish, List.cons_append, List.nil_append, List.mem_cons,
            Event.moved.injEq, List.mem_singleton, reduceCtorEq, or_false,
            List.not_mem_nil] at hmem
          obtain ⟨_, _, hg, hn⟩ := hmem
          rw [hn, hg]; omega
        · cases hm2 : HumanPlayer.move p2 g1 w1 with
          | error e =>
            rw [gameLoop_second_fault _ _ fuel grid c input g1 w1 e hm1 hz hm2] at hmem
            simp only [emit, List.cons_append, List.nil_append, List.mem_cons,
              Event.moved.injEq, List.not_mem_nil, or_false] at hmem
            obtain ⟨_, _, hg, hn⟩ := hmem
            rw [hn, hg]; exact hd1
          | ok res2 =>
            obtain ⟨r2, g2, w2⟩ := res2
            have hc2 := humanMove_countEmpty p2 hp2 hm2
            have hd2 : decr (decr c) = countEmpty g2 := by
              rw [decr_of_pos (by omega) (decr_lt c)]; omega
            by_cases hz2 : decr (decr c) = 0
            · rw [gameLoop_second_draw _ _ fuel grid c input g1 w1 r2 g2 w2 hm1 hz hm2 hz2]
                at hmem
              simp only [emit, finish, List.cons_append, List.nil_append, List.mem_cons,
                Event.moved.injEq, List.mem_singleton, reduceCtorEq, or_false,
                List.not_mem_nil] at hmem
              rcases hmem with ⟨_, _, hg, hn⟩ | ⟨_, _, hg, hn⟩
              · rw [hn, hg]; exact hd1
              · rw [hn, hg]; omega
            · by_cases h2 : r2 = Result.NOTHING
              · subst h2
                rw [gameLoop_second_continue _ _ fuel grid c input g1 w1 g2 w2 hm1 hz hm2
                  hz2] at hmem
                simp only [emit, List.cons_append, List.nil_append, List.mem_cons,
                  Event.moved.injEq] at hmem
                rcases hmem with ⟨_, _, hg, hn⟩ | ⟨_, _, hg, hn⟩ | hmem
                · rw [hn, hg]; exact hd1
                · rw [hn, hg]; exact hd2
                · exact ih g2 (decr (decr c)) w2 hd2 (decr_lt _) b r g n hmem
              · rw [gameLoop_second_decisive _ _ fuel grid c input g1 w1 r2 g2 w2 hm1 hz hm2
                  hz2 h2] at hmem
                simp only [emit, finish, List.cons_append, List.nil_append, List.mem_cons,
                  Event.moved.injEq, List.mem_singleton, reduceCtorEq, or_false,
                  List.not_mem_nil] at hmem
                rcases hmem with ⟨_, _, hg, hn⟩ | ⟨_, _, hg, hn⟩
                · rw [hn, hg]; exact hd1
                · rw [hn, hg]; exact hd2
      · rw [gameLoop_first_decisive _ _ fuel grid c input r1 g1 w1 hm1 h1] at hmem
        simp only [emit, finish, List.cons_append, List.nil_append, List.mem_cons,
          Event.moved.injEq, List.mem_singleton, reduceCtorEq, or_false,
          List.not_mem_nil] at hmem
        obtain ⟨_, _, hg, hn⟩ := hmem
        rw [hn, hg]; exact hd1

/-- A move event that is not decisive carries `NOTHING`. -/
theorem result_of_not_decisive {b : Bool} {r : Result} {g : Grid} {n : Nat}
    (h : (Event.moved b r g n).isDecisive = false) : r = Result.NOTHING := by
  cases r <;> simp [Event.isDecisive] at h ⊢

/-- Between two human players with good input and no decisive move, the loop makes exactly
as many moves as there are Empty cells and then calls `finish` with `DRAW`. -/
theorem humanLoop_draw (p1 p2 : Player) (s : Nat) (hs1 : p1.settings_.size = s)
    (hs2 : p2.settings_.size = s) (hp1 : p1.mark_ ≠ DEFAULT) (hp2 : p2.mark_ ≠ DEFAULT) :
    ∀ (fuel : Nat) (grid : Grid) (c : Nat) (input : Input),
      Square grid s → c = countEmpty grid → 0 < c → c < SIZE_T_RANGE →
      InBounds s input → CoversEmpty grid input → c ≤ 2 * fuel →
      (∀ e ∈ (gameLoop { move := HumanPlayer.move p1 } { move := HumanPlayer.move p2 }
          fuel grid c input).1, e.isDecisive = false) →
      (gameLoop { move := HumanPlayer.move p1 } { move := HumanPlayer.move p2 }
          fuel grid c input).2 = .ok ()
        ∧ ∃ moves g,
          (gameLoop { move := HumanPlayer.move p1 } { move := HumanPlayer.move p2 }
            fuel grid c input).1 = moves ++ [Event.finish Result.DRAW g]
          ∧ moves.length = c ∧ countEmpty g = 0
          ∧ ∀ k, k < c → ∃ g',
              moves[k]? = some (Event.moved (decide (k % 2 = 0)) Result.NOTHING g' (c - 1 - k))
              ∧ countEmpty g' = c - 1 - k ∧ (k + 1 = c → g' = g) := by
  intro fuel
  induction fuel with
  | zero => intro _ c _ _ _ _ _ _ _ h; omega
  | succ fuel ih =>
    intro grid c input hsq hc hpos hlt hin hcov hfuel hnd
    obtain ⟨r1, g1, w1, hm1, hsq1, hc1, hin1, hcov1⟩ :=
      humanMove_spec p1 hs1 hp1 hsq hin hcov (by omega)
    have hd1 : decr c = c - 1 := decr_of_pos hpos hlt
    by_cases h1 : r1 = Result.NOTHING
    · subst h1
      by_cases hz : decr c = 0
      · rw [gameLoop_first_draw _ _ fuel grid c input g1 w1 hm1 hz]
        refine ⟨rfl, [Event.moved true Result.NOTHING g1 0], g1, rfl, ?_, by omega, ?_⟩
        · simp only [List.length_singleton]; omega
        · intro k hk
          have hk0 : k = 0 := by omega
          subst hk0
          have hc0 : c - 1 - 0 = 0 := by omega
          refine ⟨g1, ?_, by omega, fun _ => rfl⟩
          rw [hc0]; rfl
      · obtain ⟨r2, g2, w2, hm2, hsq2, hc2, hin2, hcov2⟩ :=
          humanMove_spec p2 hs2 hp2 hsq1 hin1 hcov1 (by omega)
        have hd2 : decr (decr c) = c - 2 := by
          rw [decr_of_pos (by omega) (decr_lt c)]; omega
        by_cases hz2 : decr (decr c) = 0
        · rw [gameLoop_second_draw _ _ fuel grid c input g1 w1 r2 g2 w2 hm1 hz hm2 hz2]
            at hnd ⊢
          have hr2 : r2 = Result.NOTHING :=
            result_of_not_decisive (hnd (Event.moved false r2 g2 0) (by simp [emit]))
          subst hr2
          refine ⟨rfl, [Event.moved true Result.NOTHING g1 (decr c),
            Event.moved false Result.NOTHING g2 0], g2, rfl, ?_, by omega, ?_⟩
          · simp only [List.length_cons, List.length_nil]; omega
          · intro k hk
            have hk' : k = 0 ∨ k = 1 := by omega
            rcases hk' with rfl | rfl
            · refine ⟨g1, ?_, by omega, fun h => by omega⟩
              have : c - 1 - 0 = decr c := by omega
              rw [this]; rfl
            · refine ⟨g2, ?_, by omega, fun _ => rfl⟩
              have : c - 1 - 1 = 0 := by omega
              rw [this]; rfl
        · by_cases h2 : r2 = Result.NOTHING
          · subst h2
            rw [gameLoop_second_continue _ _ fuel grid c input g1 w1 g2 w2 hm1 hz hm2 hz2]
              at hnd ⊢
            obtain ⟨hok, moves, g, hev, hlen, hfull, hmoves⟩ :=
              ih g2 (decr (decr c)) w2 hsq2 (by omega) (by omega) (decr_lt _) hin2 hcov2
                (by omega) (fun e he => hnd e (by
                  simp only [emit, List.cons_append, List.nil_append, List.mem_cons]
                  exact Or.inr (Or.inr he)))
            refine ⟨hok, Event.moved true Result.NOTHING g1 (decr c)
              :: Event.moved false Result.NOTHING g2 (decr (decr c)) :: moves, g, ?_, ?_,
              hfull, ?_⟩
            · simp only [emit, hev, List.cons_append, List.nil_append]
            · simp only [List.length_cons, hlen]; omega
            · intro k hk
              match k, hk with
              | 0, _ =>
                refine ⟨g1, ?_, by omega, fun h => by omega⟩
                have : c - 1 - 0 = decr c := by omega
                rw [this]; rfl
              | 1, _ =>
                refine ⟨g2, ?_, by omega, fun h => by omega⟩
                have : c - 1 - 1 = decr (decr c) := by omega
                rw [this]; simp
              | k + 2, hk =>
                obtain ⟨g', hk1, hk2, hk3⟩ := hmoves k (by omega)
                refine ⟨g', ?_, by omega, fun h => hk3 (by omega)⟩
                have e1 : c - 1 - (k + 2) = decr (decr c) - 1 - k := by omega
                have e2 : (k + 2) % 2 = k % 2 := by omega
                rw [e1, e2]
                simpa using hk1
          · rw [gameLoop_second_decisive _ _ fuel grid c input g1 w1 r2 g2 w2 hm1 hz hm2 hz2
              h2] at hnd
            exact absurd (result_of_not_decisive
              (hnd (Event.moved false r2 g2 (decr (decr c))) (by simp [emit]))) h2
    · rw [gameLoop_first_decisive _ _ fuel grid c input r1 g1 w1 hm1 h1] at hnd
      exact absurd (result_of_not_decisive
        (hnd (Event.moved true r1 g1 (decr c)) (by simp [emit]))) h1

/-- The Empty cells of a row of Empty cells. -/
theorem count_replicate_empty (s : Nat) : (List.replicate s DEFAULT).count DEFAULT = s := by
  simp

/-- The number of Empty cells of an all-Empty grid. -/
theorem countEmpty_replicate (s t : Nat) :
    countEmpty (List.replicate t (List.replicate s '.')) = t * s := by
  induction t with
  | zero => simp [countEmpty]
  | succ t ih =>
    simp only [countEmpty, List.replicate_succ, List.map_cons, List.sum_cons] at ih ⊢
    rw [ih]
    have : List.count DEFAULT (List.replicate s '.') = s := count_replicate_empty s
    rw [this]
    ring

/-- The grid that `makeGrid` builds is square. -/
theorem square_replicate (s : Nat) : Square (List.replicate s (List.replicate s '.')) s := by
  refine ⟨by simp, ?_⟩
  intro row hrow
  rw [List.eq_of_mem_replicate hrow]
  simp

/-- Input that names every cell names every Empty cell. -/
theorem coversEmpty_of_coversAll {grid : Grid} {s : Nat} {input : Input}
    (hsq : Square grid s) (h : CoversAll s input) : CoversEmpty grid input := by
  intro i j ⟨row, hrow, hcell⟩
  have hi : i < grid.length := (List.getElem?_eq_some.1 hrow).1
  have hj : j < row.length := (List.getElem?_eq_some.1 hcell).1
  have hlen := hsq.2 row (List.getElem?_mem hrow)
  have := hsq.1
  exact h i (by omega) j (by omega)

/-- Reading a grid after `grid[i][j] = c` on a cell inside the grid. -/
theorem cellAt_setCell {grid : Grid} {i j : Nat} {c : Char} {row : List Char}
    (hrow : grid[i]? = some row) (hj : j < row.length) (a b : Int) :
    cellAt (setCell grid i j c) a b
      = if a = (i : Int) ∧ b = (j : Int) then some c else cellAt grid a b := by
  have hi : i < grid.length := (List.getElem?_eq_some.1 hrow).1
  unfold cellAt
  by_cases hneg : a < 0 ∨ b < 0
  · have : ¬ (a = (i : Int) ∧ b = (j : Int)) := by omega
    simp only [hneg, if_true, this, if_false]
  · simp only [hneg, if_false, setCell, hrow]
    by_cases ha : i = a.toNat
    · have ha' : a = (i : Int) := by omega
      rw [← ha, List.getElem?_set_self hi, hrow]
      simp only
      by_cases hb : j = b.toNat
      · have hb' : b = (j : Int) := by omega
        rw [← hb, List.getElem?_set_self hj]
        simp [ha', hb']
      · have hb' : ¬ b = (j : Int) := by omega
        rw [List.getElem?_set_ne hb]
        simp [hb']
    · have ha' : ¬ a = (i : Int) := by omega
      rw [List.getElem?_set_ne ha]
      simp [ha']

/-- An Empty cell read with `int` indices. -/
theorem cellAt_of_emptyAt {grid : Grid} {i j : Nat} (h : emptyAt grid i j) :
    cellAt grid i j = some DEFAULT := by
  obtain ⟨row, hrow, hcell⟩ := h
  have h1 : ¬ ((i : Int) < 0 ∨ (j : Int) < 0) := by omega
  simp [cellAt, h1, hrow, hcell]

/-- A grid keeps its own marks. -/
theorem Keeps.refl (grid : Grid) : Keeps grid grid :=
  fun _ _ _ h _ => h

/-- Keeping marks is transitive. -/
theorem Keeps.trans {g1 g2 g3 : Grid} (h12 : Keeps g1 g2) (h23 : Keeps g2 g3) : Keeps g1 g3 :=
  fun i j c h hc => h23 i j c (h12 i j c h hc) hc

/-- Writing into an Empty cell keeps all marks. -/
theorem keeps_setCell {grid : Grid} {i j : Nat} (c : Char) (h : emptyAt grid i j) :
    Keeps grid (setCell grid i j c) := by
  intro a b v hv hne
  obtain ⟨row, hrow, hcell⟩ := h
  have hj : j < row.length := (List.getElem?_eq_some.1 hcell).1
  rw [cellAt_setCell hrow hj]
  by_cases hab : a = (i : Int) ∧ b = (j : Int)
  · obtain ⟨rfl, rfl⟩ := hab
    rw [cellAt_of_emptyAt ⟨row, hrow, hcell⟩] at hv
    simp only [Option.some.injEq] at hv
    exact absurd hv.symm hne
  · simp only [hab, if_false]
    exact hv

/-- A human move that returns keeps all marks of the grid. -/
theorem humanMove_keeps (self : Player) {grid grid' : Grid} {input rest : Input} {r : Result}
    (h : HumanPlayer.move self grid input = .ok (r, grid', rest)) : Keeps grid grid' := by
  obtain ⟨i, j, _, hempty, rfl⟩ := humanMove_ok self h
  exact keeps_setCell _ hempty

/-- The moves of a human or computer player keep all marks of the grid. -/
theorem keeps_of_isHumanOrComputer {p : PlayerPtr Input} (hp : IsHumanOrComputer p)
    {grid grid' : Grid} {input rest : Input} {r : Result}
    (h : p.move grid input = .ok (r, grid', rest)) : Keeps grid grid' := by
  rcases hp with ⟨self, _, hmove⟩ | ⟨self, hmove⟩
  · rw [hmove] at h
    exact humanMove_keeps self h
  · rw [hmove] at h
    simp only [ComputerPlayer.move, Except.ok.injEq, Prod.mk.injEq] at h
    obtain ⟨_, rfl, _⟩ := h
    exact Keeps.refl _

/-- The input loop skips pairs that name occupied cells of the grid and accepts the first
pair that names an Empty cell. -/
theorem readMove_skips_occupied {grid : Grid} {i j : Nat} {rest : Input}
    (hempty : emptyAt grid i j) :
    ∀ {pre : Input},
      (∀ p ∈ pre, ∃ row c, grid[p.1]? = some row ∧ row[p.2]? = some c ∧ c ≠ DEFAULT) →
      HumanPlayer.readMove grid (pre ++ (i, j) :: rest) = .ok ((i, j), rest) := by
  intro pre
  induction pre with
  | nil =>
    intro _
    simp [HumanPlayer.readMove, validMove_eq_true_iff.2 hempty]
  | cons p ps ih =>
    intro hpre
    obtain ⟨a, b⟩ := p
    obtain ⟨row, c, hrow, hcell, hc⟩ := hpre (a, b) (List.mem_cons_self _ _)
    have hv : Player.validMove grid a b = .ok false := by
      simp [Player.validMove, hrow, hcell, hc]
    simp only [List.cons_append, HumanPlayer.readMove, hv]
    exact ih (fun q hq => hpre q (List.mem_cons_of_mem _ hq))

/-- Along a chain, every later grid keeps the marks of the starting grid and of every
earlier grid of the chain. -/
theorem keepsChain_spec :
    ∀ (events : List Event) (grid : Grid), KeepsChain grid events →
      (∀ (k : Nat) b r g n, events[k]? = some (Event.moved b r g n) → Keeps grid g)
        ∧ (∀ (k k' : Nat) b r g n b' r' g' n', k ≤ k' →
            events[k]? = some (Event.moved b r g n) →
            events[k']? = some (Event.moved b' r' g' n') → Keeps g g') := by
  intro events
  induction events with
  | nil => intro grid _; simp
  | cons e es ih =>
    intro grid hchain
    cases e with
    | moved b0 r0 g0 n0 =>
      obtain ⟨h0, hrest⟩ := hchain
      obtain ⟨ih1, ih2⟩ := ih g0 hrest
      constructor
      · intro k b r g n hk
        cases k with
        | zero =>
          simp only [List.getElem?_cons_zero, Option.some.injEq, Event.moved.injEq] at hk
          obtain ⟨_, _, rfl, _⟩ := hk
          exact h0
        | succ k =>
          simp only [List.getElem?_cons_succ] at hk
          exact Keeps.trans h0 (ih1 k b r g n hk)
      · intro k k' b r g n b' r' g' n' hkk hk hk'
        cases k with
        | zero =>
          simp only [List.getElem?_cons_zero, Option.some.injEq, Event.moved.injEq] at hk
          obtain ⟨_, _, rfl, _⟩ := hk
          cases k' with
          | zero =>
            simp only [List.getElem?_cons_zero, Option.some.injEq, Event.moved.injEq] at hk'
            obtain ⟨_, _, rfl, _⟩ := hk'
            exact Keeps.refl _
          | succ k' =>
            simp only [List.getElem?_cons_succ] at hk'
            exact ih1 k' b' r' g' n' hk'
        | succ k =>
          cases k' with
          | zero => omega
          | succ k' =>
            simp only [List.getElem?_cons_succ] at hk hk'
            exact ih2 k k' b r g n b' r' g' n' (by omega) hk hk'
    | init f st m =>
      obtain ⟨ih1, ih2⟩ := ih grid hchain
      constructor
      · intro k b r g n hk
        cases k with
        | zero => simp at hk
        | succ k =>
          simp only [List.getElem?_cons_succ] at hk
          exact ih1 k b r g n hk
      · intro k k' b r g n b' r' g' n' hkk hk hk'
        cases k with
        | zero => simp at hk
        | succ k =>
          cases k' with
          | zero => omega
          | succ k' =>
            simp only [List.getElem?_cons_succ] at hk hk'
            exact ih2 k k' b r g n b' r' g' n' (by omega) hk hk'
    | makeGrid sz =>
      obtain ⟨ih1, ih2⟩ := ih grid hchain
      constructor
      · intro k b r g n hk
        cases k with
        | zero => simp at hk
        | succ k =>
          simp only [List.getElem?_cons_succ] at hk
          exact ih1 k b r g n hk
      · intro k k' b r g n b' r' g' n' hkk hk hk'
        cases k with
        | zero => simp at hk
        | succ k =>
          cases k' with
          | zero => omega
          | succ k' =>
            simp only [List.getElem?_cons_succ] at hk hk'
            exact ih2 k k' b r g n b' r' g' n' (by omega) hk hk'
    | finish r0 g0 =>
      obtain ⟨ih1, ih2⟩ := ih grid hchain
      constructor
      · intro k b r g n hk
        cases k with
        | zero => simp at hk
        | succ k =>
          simp only [List.getElem?_cons_succ] at hk
          exact ih1 k b r g n hk
      · intro k k' b r g n b' r' g' n' hkk hk hk'
        cases k with
        | zero => simp at hk
        | succ k =>
          cases k' with
          | zero => omega
          | succ k' =>
            simp only [List.getElem?_cons_succ] at hk hk'
            exact ih2 k k' b r g n b' r' g' n' (by omega) hk hk'

/-- With players whose moves keep the marks of the grid, the events of the game loop form
a chain. -/
theorem gameLoop_keepsChain {σ : Type} (first second : PlayerPtr σ)
    (hfirst : ∀ g w r g' w', first.move g w = .ok (r, g', w') → Keeps g g')
    (hsecond : ∀ g w r g' w', second.move g w = .ok (r, g', w') → Keeps g g') :
    ∀ (fuel : Nat) (grid : Grid) (c : Nat) (w : σ),
      KeepsChain grid (gameLoop first second fuel grid c w).1 := by
  intro fuel
  induction fuel with
  | zero => intro grid c w; simp [gameLoop, KeepsChain]
  | succ fuel ih =>
    intro grid c w
    cases hm1 : first.move grid w with
    | error e =>
      rw [gameLoop_first_fault _ _ fuel grid c w e hm1]
      trivial
    | ok res1 =>
      obtain ⟨r1, g1, w1⟩ := res1
      have hk1 := hfirst _ _ _ _ _ hm1
      by_cases h1 : r1 = Result.NOTHING
      · subst h1
        by_cases hz : decr c = 0
        · rw [gameLoop_first_draw _ _ fuel grid c w g1 w1 hm1 hz]
          exact ⟨hk1, trivial⟩
        · cases hm2 : second.move g1 w1 with
          | error e =>
            rw [gameLoop_second_fault _ _ fuel grid c w g1 w1 e hm1 hz hm2]
            exact ⟨hk1, trivial⟩
          | ok res2 =>
            obtain ⟨r2, g2, w2⟩ := res2
            have hk2 := hsecond _ _ _ _ _ hm2
            by_cases hz2 : decr (decr c) = 0
            · rw [gameLoop_second_draw _ _ fuel grid c w g1 w1 r2 g2 w2 hm1 hz hm2 hz2]
              exact ⟨hk1, hk2, trivial⟩
            · by_cases h2 : r2 = Result.NOTHING
              · subst h2
                rw [gameLoop_second_continue _ _ fuel grid c w g1 w1 g2 w2 hm1 hz hm2 hz2]
                exact ⟨hk1, hk2, ih g2 _ w2⟩
              · rw [gameLoop_second_decisive _ _ fuel grid c w g1 w1 r2 g2 w2 hm1 hz hm2
                  hz2 h2]
                exact ⟨hk1, hk2, trivial⟩
      · rw [gameLoop_first_decisive _ _ fuel grid c w r1 g1 w1 hm1 h1]
        exact ⟨hk1, trivial⟩

/-- Overwriting an Empty cell of a row with `c` adds one to the count of `c` and leaves
the counts of the other marks as they are. -/
theorem count_set_mark {row : List Char} {j : Nat} {c m : Char}
    (hcell : row[j]? = some DEFAULT) (hm : m ≠ DEFAULT) :
    (row.set j c).count m = row.count m + (if c = m then 1 else 0) := by
  obtain ⟨hj, hv⟩ := List.getElem?_eq_some.1 hcell
  rw [List.count_set _ _ _ _ hj]
  have h1 : (row[j] == m) = false := by
    rw [hv]; simp [Ne.symm hm]
  simp only [h1, Bool.false_eq_true, if_false, Nat.sub_zero, beq_iff_eq]

/-- Overwriting an Empty cell of the grid with `c` adds one to the count of `c` and
leaves the counts of the other marks as they are. -/
theorem countMark_setCell {grid : Grid} {i j : Nat} {c m : Char}
    (hempty : emptyAt grid i j) (hm : m ≠ DEFAULT) :
    countMark m (setCell grid i j c) = countMark m grid + (if c = m then 1 else 0) := by
  obtain ⟨row, hrow, hcell⟩ := hempty
  have h1 := sum_map_set (List.count m) grid i (row.set j c) row hrow
  have h2 := count_set_mark (c := c) hcell hm
  simp only [countMark, setCell, hrow]
  omega

/-- A human move that returns adds one cell with the player's mark. -/
theorem humanMove_countMark (self : Player) {grid grid' : Grid} {input rest : Input}
    {r : Result} (m : Char) (hm : m ≠ DEFAULT)
    (h : HumanPlayer.move self grid input = .ok (r, grid', rest)) :
    countMark m grid' = countMark m grid + (if self.mark_ = m then 1 else 0) := by
  obtain ⟨i, j, _, hempty, rfl⟩ := humanMove_ok self h
  exact countMark_setCell hempty hm

/-- An all-Empty grid holds no mark. -/
theorem countMark_replicate (m : Char) (hm : m ≠ DEFAULT) (s t : Nat) :
    countMark m (List.replicate t (List.replicate s '.')) = 0 := by
  induction t with
  | zero => simp [countMark]
  | succ t ih =>
    simp only [countMark, List.replicate_succ, List.map_cons, List.sum_cons] at ih ⊢
    rw [ih]
    have : List.count m (List.replicate s '.') = 0 := by
      rw [List.count_replicate]
      simp [Ne.symm hm, DEFAULT] 
      intro h
      exact absurd h.symm hm
    omega

/-- Between two human players with different marks, the `k`-th returned move (from 0) is
by the first player exactly when `k` is even, and after it the first player's mark has
been placed `(k + 2) / 2` times and the second player's `(k + 1) / 2` times. -/
theorem humanLoop_alternates (p1 p2 : Player) (hp1 : p1.mark_ ≠ DEFAULT)
    (hp2 : p2.mark_ ≠ DEFAULT) (hne : p1.mark_ ≠ p2.mark_) :
    ∀ (fuel : Nat) (grid : Grid) (c : Nat) (input : Input) (k : Nat) (b : Bool) (r : Result)
      (g : Grid) (n : Nat),
      (gameLoop { move := HumanPlayer.move p1 } { move := HumanPlayer.move p2 }
        fuel grid c input).1[k]? = some (Event.moved b r g n) →
      b = decide (k % 2 = 0)
        ∧ countMark p1.mark_ g = countMark p1.mark_ grid + (k + 2) / 2
        ∧ countMark p2.mark_ g = countMark p2.mark_ grid + (k + 1) / 2 := by
  intro fuel
  induction fuel with
  | zero => intro grid c input k b r g n h; simp [gameLoop] at h
  | succ fuel ih =>
    intro grid c input k b r g n hk
    cases hm1 : HumanPlayer.move p1 grid input with
    | error e =>
      rw [gameLoop_first_fault _ _ fuel grid c input e hm1] at hk
      simp at hk
    | ok res1 =>
      obtain ⟨r1, g1, w1⟩ := res1
      have hx1 := humanMove_countMark p1 p1.mark_ hp1 hm1
      have hy1 := humanMove_countMark p1 p2.mark_ hp2 hm1
      simp only [if_true, hne, if_false] at hx1 hy1
      have first_case : ∀ (tail : List Event) (hfin : ∀ e ∈ tail, ∀ b r g n,
          e ≠ Event.moved b r g n) (n1 : Nat),
          (Event.moved true r1 g1 n1 :: tail)[k]? = some (Event.moved b r g n) →
          b = decide (k % 2 = 0)
            ∧ countMark p1.mark_ g = countMark p1.mark_ grid + (k + 2) / 2
            ∧ countMark p2.mark_ g = countMark p2.mark_ grid + (k + 1) / 2 := by
        intro tail hfin n1 hk
        cases k with
        | zero =>
          simp only [List.getElem?_cons_zero, Option.some.injEq, Event.moved.injEq] at hk
          obtain ⟨hb, _, hg, _⟩ := hk
          subst hb hg
          refine ⟨rfl, ?_, ?_⟩
          · rw [hx1]
          · rw [hy1]
        | succ k =>
          simp only [List.getElem?_cons_succ] at hk
          exact absurd rfl (hfin _ (List.getElem?_mem hk) b r g n)
      by_cases h1 : r1 = Result.NOTHING
      · subst h1
        by_cases hz : decr c = 0
        · rw [gameLoop_first_draw _ _ fuel grid c input g1 w1 hm1 hz] at hk
          exact first_case [Event.finish Result.DRAW g1] (by simp) 0 hk
        · cases hm2 : HumanPlayer.move p2 g1 w1 with
          | error e =>
            rw [gameLoop_second_fault _ _ fuel grid c input g1 w1 e hm1 hz hm2] at hk
            exact first_case [] (by simp) _ hk
          | ok res2 =>
            obtain ⟨r2, g2, w2⟩ := res2
            have hx2 := humanMove_countMark p2 p1.mark_ hp1 hm2
            have hy2 := humanMove_countMark p2 p2.mark_ hp2 hm2
            simp only [if_true, Ne.symm hne, if_false] at hx2 hy2
            have second_case : ∀ (tail : List Event) (n1 n2 : Nat),
                (∀ (k : Nat) b r g n, tail[k]? = some (Event.moved b r g n) →
                  b = decide (k % 2 = 0)
                    ∧ countMark p1.mark_ g = countMark p1.mark_ g2 + (k + 2) / 2
                    ∧ countMark p2.mark_ g = countMark p2.mark_ g2 + (k + 1) / 2) →
                (Event.moved true Result.NOTHING g1 n1 :: Event.moved false r2 g2 n2
                  :: tail)[k]? = some (Event.moved b r g n) →
                b = decide (k % 2 = 0)
                  ∧ countMark p1.mark_ g = countMark p1.mark_ grid + (k + 2) / 2
                  ∧ countMark p2.mark_ g = countMark p2.mark_ grid + (k + 1) / 2 := by
              intro tail n1 n2 htail hk
              match k, hk with
              | 0, hk =>
                simp only [List.getElem?_cons_zero, Option.some.injEq, Event.moved.injEq]
                  at hk
                obtain ⟨hb, _, hg, _⟩ := hk
                subst hb hg
                refine ⟨rfl, ?_, ?_⟩
                · rw [hx1]
                · rw [hy1]
              | 1, hk =>
                simp only [List.getElem?_cons_succ, List.getElem?_cons_zero,
                  Option.some.injEq, Event.moved.injEq] at hk
                obtain ⟨hb, _, hg, _⟩ := hk
                subst hb hg
                refine ⟨rfl, ?_, ?_⟩
                · rw [hx2, hx1]
                · rw [hy2, hy1]
              | k + 2, hk =>
                simp only [List.getElem?_cons_succ] at hk
                obtain ⟨hb, hx, hy⟩ := htail k b r g n hk
                refine ⟨?_, ?_, ?_⟩
                · rw [hb]
                  have : (k + 2) % 2 = k % 2 := by omega
                  rw [this]
                · rw [hx, hx2, hx1]; omega
                · rw [hy, hy2, hy1]; omega
            have no_moved : ∀ (rr : Result) (gg : Grid) (k : Nat) b r g n,
                [Event.finish rr gg][k]? = some (Event.moved b r g n) → False := by
              intro rr gg k b r g n h
              cases k with
              | zero => simp at h
              | succ k => simp at h
            by_cases hz2 : decr (decr c) = 0
            · rw [gameLoop_second_draw _ _ fuel grid c input g1 w1 r2 g2 w2 hm1 hz hm2 hz2]
                at hk
              exact second_case [Event.finish Result.DRAW g2] _ _
                (fun k b r g n h => (no_moved _ _ k b r g n h).elim) hk
            · by_cases h2 : r2 = Result.NOTHING
              · subst h2
                rw [gameLoop_second_continue _ _ fuel grid c input g1 w1 g2 w2 hm1 hz hm2
                  hz2] at hk
                exact second_case _ _ _ (fun k b r g n h => ih g2 _ w2 k b r g n h) hk
              · rw [gameLoop_second_decisive _ _ fuel grid c input g1 w1 r2 g2 w2 hm1 hz hm2
                  hz2 h2] at hk
                exact second_case [Event.finish r2 g2] _ _
                  (fun k b r g n h => (no_moved _ _ k b r g n h).elim) hk
      · rw [gameLoop_first_decisive _ _ fuel grid c input r1 g1 w1 hm1 h1] at hk
        exact first_case [Event.finish r1 g1] (by simp) _ hk

/-- In a loop all of whose calls of `move` return, started with a positive counter and
fuel for it, the loop ends in one call of `finish` after at most `c` calls of `move`, each
of which produced one `moved` event, and the `k`-th move (from 0) leaves the counter at
exactly `c - (k + 1)`: it never wraps. -/
theorem gameLoop_bounded_of_calls {σ : Type} (first second : PlayerPtr σ) :
    ∀ (fuel : Nat) (grid : Grid) (c : Nat) (w : σ), 0 < c → c < SIZE_T_RANGE →
      c ≤ 2 * fuel →
      (∀ x ∈ moveCalls first second fuel grid c w, callReturned x = true) →
      ∃ moves r g,
        (gameLoop first second fuel grid c w).1 = moves ++ [Event.finish r g]
        ∧ (gameLoop first second fuel grid c w).2 = (finish r g).2
        ∧ (moveCalls first second fuel grid c w).length = moves.length
        ∧ moves.length ≤ c
        ∧ ∀ k : Nat, k < moves.length → ∃ b r' g' n,
            moves[k]? = some (Event.moved b r' g' n) ∧ n + (k + 1) = c := by
  intro fuel
  induction fuel with
  | zero => intro _ c _ _ _ h; omega
  | succ fuel ih =>
    intro grid c w hpos hlt hfuel hcalls
    have hd1 : decr c = c - 1 := decr_of_pos hpos hlt
    cases hm1 : first.move grid w with
    | error e =>
      rw [moveCalls_first_fault _ _ fuel grid c w e hm1] at hcalls
      have := hcalls _ (List.mem_singleton.2 rfl)
      simp [callReturned] at this
    | ok res1 =>
      obtain ⟨r1, g1, w1⟩ := res1
      have one : ∀ k : Nat, k < [Event.moved true r1 g1 (decr c)].length → ∃ b r' g' n,
          [Event.moved true r1 g1 (decr c)][k]? = some (Event.moved b r' g' n)
            ∧ n + (k + 1) = c := by
        intro k hk
        have hk0 : k = 0 := by simpa using hk
        subst hk0
        exact ⟨true, r1, g1, decr c, rfl, by omega⟩
      by_cases h1 : r1 = Result.NOTHING
      · subst h1
        by_cases hz : decr c = 0
        · rw [gameLoop_first_draw _ _ fuel grid c w g1 w1 hm1 hz,
            moveCalls_first_draw _ _ fuel grid c w g1 w1 hm1 hz]
          refine ⟨[Event.moved true Result.NOTHING g1 0], Result.DRAW, g1, rfl, rfl, rfl,
            ?_, ?_⟩
          · simp only [List.length_singleton]; omega
          · rw [← hz]; exact one
        · cases hm2 : second.move g1 w1 with
          | error e =>
            rw [moveCalls_second_fault _ _ fuel grid c w g1 w1 e hm1 hz hm2] at hcalls
            have := hcalls (.error e) (by simp)
            simp [callReturned] at this
          | ok res2 =>
            obtain ⟨r2, g2, w2⟩ := res2
            have hd2 : decr (decr c) = c - 2 := by
              rw [decr_of_pos (by omega) (decr_lt c)]; omega
            have two : ∀ k : Nat,
                k < [Event.moved true Result.NOTHING g1 (decr c),
                  Event.moved false r2 g2 (decr (decr c))].length → ∃ b r' g' n,
                [Event.moved true Result.NOTHING g1 (decr c),
                  Event.moved false r2 g2 (decr (decr c))][k]?
                    = some (Event.moved b r' g' n)
                  ∧ n + (k + 1) = c := by
              intro k hk
              have hk' : k = 0 ∨ k = 1 := by
                simp only [List.length_cons, List.length_nil] at hk; omega
              rcases hk' with rfl | rfl
              · exact ⟨true, Result.NOTHING, g1, decr c, rfl, by omega⟩
              · exact ⟨false, r2, g2, decr (decr c), rfl, by omega⟩
            by_cases hz2 : decr (decr c) = 0
            · rw [gameLoop_second_draw _ _ fuel grid c w g1 w1 r2 g2 w2 hm1 hz hm2 hz2,
                moveCalls_second_last _ _ fuel grid c w g1 w1 r2 g2 w2 hm1 hz hm2
                  (Or.inl hz2)]
              refine ⟨[Event.moved true Result.NOTHING g1 (decr c),
                Event.moved false r2 g2 0], Result.DRAW, g2, rfl, rfl, rfl, ?_, ?_⟩
              · simp only [List.length_cons, List.length_nil]; omega
              · rw [← hz2]; exact two
            · by_cases h2 : r2 = Result.NOTHING
              · subst h2
                rw [moveCalls_second_continue _ _ fuel grid c w g1 w1 g2 w2 hm1 hz hm2 hz2]
                  at hcalls ⊢
                rw [gameLoop_second_continue _ _ fuel grid c w g1 w1 g2 w2 hm1 hz hm2 hz2]
                obtain ⟨moves, r, g, hev, hst, hcl, hlen, hmoves⟩ :=
                  ih g2 (decr (decr c)) w2 (by omega) (decr_lt _) (by omega)
                    (fun x hx => hcalls x
                      (List.mem_cons_of_mem _ (List.mem_cons_of_mem _ hx)))
                refine ⟨Event.moved true Result.NOTHING g1 (decr c)
                  :: Event.moved false Result.NOTHING g2 (decr (decr c)) :: moves, r, g, ?_,
                  hst, ?_, ?_, ?_⟩
                · simp only [emit, hev, List.cons_append, List.nil_append]
                · simp only [List.length_cons, hcl]
                · simp only [List.length_cons]; omega
                · intro k hk
                  match k, hk with
                  | 0, _ => exact ⟨true, Result.NOTHING, g1, decr c, rfl, by omega⟩
                  | 1, _ =>
                    exact ⟨false, Result.NOTHING, g2, decr (decr c), by simp, by omega⟩
                  | k + 2, hk =>
                    simp only [List.length_cons] at hk
                    obtain ⟨b, r', g', n, hk1, hk2⟩ := hmoves k (by omega)
                    exact ⟨b, r', g', n, by simpa using hk1, by omega⟩
              · rw [gameLoop_second_decisive _ _ fuel grid c w g1 w1 r2 g2 w2 hm1 hz hm2 hz2
                  h2, moveCalls_second_last _ _ fuel grid c w g1 w1 r2 g2 w2 hm1 hz hm2
                  (Or.inr h2)]
                refine ⟨[Event.moved true Result.NOTHING g1 (decr c),
                  Event.moved false r2 g2 (decr (decr c))], r2, g2, rfl, rfl, rfl, ?_, two⟩
                simp only [List.length_cons, List.length_nil]; omega
      · rw [gameLoop_first_decisive _ _ fuel grid c w r1 g1 w1 hm1 h1,
          moveCalls_first_decisive _ _ fuel grid c w r1 g1 w1 hm1 h1]
        refine ⟨[Event.moved true r1 g1 (decr c)], r1, g1, rfl, rfl, rfl, ?_, one⟩
        simp only [List.length_singleton]; omega

/-- Between two `ComputerPlayer`s a loop that starts with a positive counter `c` and fuel
for it makes exactly `c` moves on the unchanged grid and then calls `finish` with
`DRAW`. -/
theorem computerLoop_draw {σ : Type} (cp1 cp2 : ComputerPlayer) :
    ∀ (fuel : Nat) (grid : Grid) (c : Nat) (w : σ), 0 < c → c < SIZE_T_RANGE →
      c ≤ 2 * fuel →
      ∃ moves,
        gameLoop { move := ComputerPlayer.move cp1 } { move := ComputerPlayer.move cp2 }
            fuel grid c w = (moves ++ [Event.finish Result.DRAW grid], .ok ())
        ∧ moves.length = c
        ∧ ∀ k : Nat, k < c →
            moves[k]? = some (Event.moved (decide (k % 2 = 0)) Result.NOTHING grid
              (c - 1 - k)) := by
  intro fuel
  induction fuel with
  | zero => intro _ c _ _ _ h; omega
  | succ fuel ih =>
    intro grid c w hpos hlt hfuel
    have hm1 : (PlayerPtr.mk (ComputerPlayer.move cp1)).move grid w
        = .ok (Result.NOTHING, grid, w) := rfl
    have hm2 : (PlayerPtr.mk (ComputerPlayer.move cp2)).move grid w
        = .ok (Result.NOTHING, grid, w) := rfl
    have hd1 : decr c = c - 1 := decr_of_pos hpos hlt
    by_cases hz : decr c = 0
    · rw [gameLoop_first_draw _ _ fuel grid c w grid w hm1 hz]
      refine ⟨[Event.moved true Result.NOTHING grid 0], rfl, ?_, ?_⟩
      · simp only [List.length_singleton]; omega
      · intro k hk
        have hk0 : k = 0 := by omega
        subst hk0
        have : c - 1 - 0 = 0 := by omega
        rw [this]; rfl
    · have hd2 : decr (decr c) = c - 2 := by
        rw [decr_of_pos (by omega) (decr_lt c)]; omega
      by_cases hz2 : decr (decr c) = 0
      · rw [gameLoop_second_draw _ _ fuel grid c w grid w Result.NOTHING grid w hm1 hz hm2
          hz2]
        refine ⟨[Event.moved true Result.NOTHING grid (decr c),
          Event.moved false Result.NOTHING grid 0], rfl, ?_, ?_⟩
        · simp only [List.length_cons, List.length_nil]; omega
        · intro k hk
          have hk' : k = 0 ∨ k = 1 := by omega
          rcases hk' with rfl | rfl
          · have : c - 1 - 0 = decr c := by omega
            rw [this]; rfl
          · have : c - 1 - 1 = 0 := by omega
            rw [this]; rfl
      · rw [gameLoop_second_continue _ _ fuel grid c w grid w grid w hm1 hz hm2 hz2]
        obtain ⟨moves, hrun, hlen, hmoves⟩ :=
          ih grid (decr (decr c)) w (by omega) (decr_lt _) (by omega)
        refine ⟨Event.moved true Result.NOTHING grid (decr c)
          :: Event.moved false Result.NOTHING grid (decr (decr c)) :: moves, ?_, ?_, ?_⟩
        · rw [hrun]; rfl
        · simp only [List.length_cons, hlen]; omega
        · intro k hk
          match k, hk with
          | 0, _ =>
            have : c - 1 - 0 = decr c := by omega
            rw [this]; rfl
          | 1, _ =>
            have : c - 1 - 1 = decr (decr c) := by omega
            rw [this]; simp
          | k + 2, hk =>
            have hk1 := hmoves k (by omega)
            have e1 : c - 1 - (k + 2) = decr (decr c) - 1 - k := by omega
            have e2 : (k + 2) % 2 = k % 2 := by omega
            rw [e1, e2]
            simpa using hk1

/-! ## Theorems -/

/-- C1 (the code misses a line): on a size-4 board with line length 3, three `x` on the
down-left diagonal `(1,3), (2,2), (3,1)` form a line of the required length, yet
`checkWin` of the `x` player returns `false`. -/
theorem checkWin_misses_lower_antidiagonal :
    Square lowerAntiDiagonalGrid 4
      ∧ RunAt lowerAntiDiagonalGrid 'x' 1 3 1 (-1) 3
      ∧ HasLine lowerAntiDiagonalGrid 'x' 3
      ∧ (HumanPlayer.init { size := 4, lineLen := 3 } 'x').checkWin lowerAntiDiagonalGrid
          = .ok false := by
  have h : RunAt lowerAntiDiagonalGrid 'x' 1 3 1 (-1) 3 := by decide
  exact ⟨by decide, h, ⟨1, 3, Or.inr (Or.inr (Or.inr h))⟩, by decide⟩

/-- C2: on a square grid whose dimension is the player's `size`, with line length at least
1: if `checkWin` returns `true` then the grid holds `lineLen` consecutive cells equal to
the player's mark along a row, a column or one of the two diagonal directions; and a
grid without such a line makes `checkWin` return `false`. -/
theorem checkWin_sound (self : Player) (grid : Grid) (s : Nat)
    (hsize : self.settings_.size = s) (hsq : Square grid s)
    (hl : 1 ≤ self.settings_.lineLen) :
    (self.checkWin grid = .ok true → HasLine grid self.mark_ self.settings_.lineLen.toNat)
      ∧ (¬ HasLine grid self.mark_ self.settings_.lineLen.toNat →
          self.checkWin grid = .ok false) := by
  obtain ⟨b, hb, hline⟩ := checkWin_returns_sound self grid s hsize hsq hl
  constructor
  · intro h
    rw [hb] at h
    exact hline (by simpa using h)
  · intro hno
    cases b with
    | true => exact absurd (hline rfl) hno
    | false => exact hb

/-- C2, on the board of the specification (size 5, `x` at `(0,0), (1,1), (2,2), (3,3)`):
with line length 4 `checkWin` returns `true` and the line it reports exists; with line
length 5 it returns `false`. -/
theorem checkWin_sound_diagonal_example :
    (HumanPlayer.init { size := 5, lineLen := 4 } 'x').checkWin diagonalGrid5 = .ok true
      ∧ HasLine diagonalGrid5 'x' 4
      ∧ (HumanPlayer.init { size := 5, lineLen := 5 } 'x').checkWin diagonalGrid5
          = .ok false :=
  ⟨by decide,
   (checkWin_sound (HumanPlayer.init { size := 5, lineLen := 4 } 'x') diagonalGrid5 5
      (by decide) (by decide) (by decide)).1 (by decide),
   by decide⟩

/-- C3 (the second player's win on the last cell is reported as a draw): in the size-4,
line-length-4 game between two human players fed `lastCellWinInput`, the sixteenth move
returns `SECOND` with the counter at zero, and `finish` is then called with `DRAW`. -/
theorem game_second_win_on_last_cell_is_draw :
    (startGame 8 HumanPlayer.make HumanPlayer.make 4 4 lastCellWinInput).1.drop 18
        = [Event.moved false Result.SECOND lastCellWinGrid 0,
           Event.finish Result.DRAW lastCellWinGrid]
      ∧ (startGame 8 HumanPlayer.make HumanPlayer.make 4 4 lastCellWinInput).2 = .ok ()
      ∧ RunAt lastCellWinGrid 'o' 0 0 0 1 4 := by
  decide

/-- C4: `startGame` accepts a pair (it goes on to initialise the first player) exactly
when `3 ≤ size ≤ 100` and `3 ≤ lineLen ≤ size`.  Every other pair ends the run with a
range error and no event at all (no `init`, no `makeGrid`); a bad size is reported
whatever `lineLen` is.  An accepted pair leads to the two `init` calls with these
settings, then to `makeGrid(size)`, then to `game` on the all-Empty grid. -/
theorem startGame_validates_settings {σ : Type} (fuel : Nat) (first second : PlayerClass σ)
    (size lineLen : Int) (world : σ) :
    (ValidSettings size lineLen ↔
        (startGame fuel first second size lineLen world).1.head?
          = some (Event.init true { size := size, lineLen := lineLen } FIRST))
      ∧ (¬ (3 ≤ size ∧ size ≤ 100) →
        startGame fuel first second size lineLen world
          = ([], .error (.rangeError "Grid size is " size)))
      ∧ ((3 ≤ size ∧ size ≤ 100) → ¬ (3 ≤ lineLen ∧ lineLen ≤ size) →
        startGame fuel first second size lineLen world
          = ([], .error (.rangeError "Line len is " lineLen)))
      ∧ (ValidSettings size lineLen →
        ∀ p q, first { size := size, lineLen := lineLen } FIRST = .ok p →
          second { size := size, lineLen := lineLen } SECOND = .ok q →
          startGame fuel first second size lineLen world
            = emit [Event.init true { size := size, lineLen := lineLen } FIRST,
                    Event.init false { size := size, lineLen := lineLen } SECOND,
                    Event.makeGrid size]
                (game fuel p q (List.replicate size.toNat (List.replicate size.toNat '.'))
                  world)) := by
  unfold ValidSettings
  refine ⟨?_, ?_, ?_, ?_⟩
  · constructor
    · intro h
      have h1 : ¬ (size < 3 ∨ size > 100) := by omega
      have h2 : ¬ (lineLen < 3 ∨ lineLen > size) := by omega
      simp [startGame, h1, h2, emit]
    · intro h
      by_contra hv
      by_cases h1 : size < 3 ∨ size > 100
      · simp [startGame, h1] at h
      · by_cases h2 : lineLen < 3 ∨ lineLen > size
        · simp [startGame, h1, h2] at h
        · omega
  · intro h
    have h1 : size < 3 ∨ size > 100 := by omega
    simp [startGame, h1]
  · intro h h'
    have h1 : ¬ (size < 3 ∨ size > 100) := by omega
    have h2 : lineLen < 3 ∨ lineLen > size := by omega
    simp [startGame, h1, h2]
  · intro h p q hp hq
    have h1 : ¬ (size < 3 ∨ size > 100) := by omega
    have h2 : ¬ (lineLen < 3 ∨ lineLen > size) := by omega
    have h3 : ¬ size < 0 := by omega
    simp [startGame, h1, h2, hp, hq, makeGrid, h3, emit]

/-- C4, at the pair of the specification: `size = 3`, `lineLen = 4` is rejected with a
range error on the line length before anything is initialised. -/
theorem startGame_rejects_3_4 :
    startGame 5 HumanPlayer.make HumanPlayer.make 3 4 []
      = ([], .error (.rangeError "Line len is " 4)) :=
  (startGame_validates_settings 5 HumanPlayer.make HumanPlayer.make 3 4 []).2.2.1
    (by decide) (by decide)

/-- C5 (as amended): in every game between two human players (marks `x` and `o`) that
starts on the all-Empty grid of dimension `s`, after each move, that is in every `moved`
event of every run however long, the counter `numEmptyCells` equals the number of Empty
cells of the grid. -/
theorem human_game_counter (settings : Settings) (s fuel : Nat) (input : Input)
    (hs : s < 4294967296) (b : Bool) (r : Result) (g : Grid) (n : Nat)
    (hmem : Event.moved b r g n
      ∈ (game fuel { move := HumanPlayer.move (HumanPlayer.init settings FIRST) }
            { move := HumanPlayer.move (HumanPlayer.init settings SECOND) }
            (List.replicate s (List.replicate s '.')) input).1) :
    n = countEmpty g := by
  have hlt : s * s < SIZE_T_RANGE := by
    unfold SIZE_T_RANGE
    nlinarith
  have hc : s * s = countEmpty (List.replicate s (List.replicate s '.')) :=
    (countEmpty_replicate s s).symm
  unfold game at hmem
  rw [List.length_replicate, Nat.mod_eq_of_lt hlt] at hmem
  exact humanLoop_counter _ _ (show 'x' ≠ '.' by decide) (show 'o' ≠ '.' by decide) fuel _ (s * s) input hc hlt b r g n hmem

/-- C5 (as amended), on the size-3 board after the first move `(0,0)`: the counter is 8 and
8 cells are Empty. -/
theorem human_game_counter_example :
    8 = countEmpty [['x', '.', '.'], ['.', '.', '.'], ['.', '.', '.']] :=
  human_game_counter { size := 3, lineLen := 3 } 3 1 [(0, 0)] (by decide) true Result.NOTHING
    [['x', '.', '.'], ['.', '.', '.'], ['.', '.', '.']] 8 (by decide)

/-- C5 (as stated, refuted): in the size-3 game between two `ComputerPlayer`s a move has
returned with the counter at 8 while all 9 cells of the grid are still Empty. -/
theorem computer_game_counter_differs :
    ∃ b r g n, Event.moved b r g n
        ∈ (startGame 5 ComputerPlayer.make ComputerPlayer.make 3 3 ()).1
      ∧ n ≠ countEmpty g :=
  ⟨true, Result.NOTHING, emptyGrid3, 8, by decide, by decide⟩

/-- C6: a game between two human players on the all-Empty grid of dimension `s ≥ 3`, whose
input stays inside the grid and names every cell, and in which every move returns
`NOTHING`: the run ends normally and consists of exactly `s * s` moves followed by one
call `finish(DRAW, g)`.  The moves alternate starting with the first player, the `k`-th
move (from 0) leaves `s * s - 1 - k` Empty cells, so the grid is full only after the last
one, and `g` is that full grid. -/
theorem human_game_draw (l : Int) (s fuel : Nat) (input : Input)
    (hs : 3 ≤ s) (hint : s < 2147483648) (hfuel : s * s ≤ fuel)
    (hin : InBounds s input) (hcov : CoversAll s input)
    (hnd : ∀ e ∈ (game fuel
        { move := HumanPlayer.move (HumanPlayer.init { size := s, lineLen := l } FIRST) }
        { move := HumanPlayer.move (HumanPlayer.init { size := s, lineLen := l } SECOND) }
        (List.replicate s (List.replicate s '.')) input).1, e.isDecisive = false) :
    (game fuel
        { move := HumanPlayer.move (HumanPlayer.init { size := s, lineLen := l } FIRST) }
        { move := HumanPlayer.move (HumanPlayer.init { size := s, lineLen := l } SECOND) }
        (List.replicate s (List.replicate s '.')) input).2 = .ok ()
      ∧ ∃ moves g,
        (game fuel
          { move := HumanPlayer.move (HumanPlayer.init { size := s, lineLen := l } FIRST) }
          { move := HumanPlayer.move (HumanPlayer.init { size := s, lineLen := l } SECOND) }
          (List.replicate s (List.replicate s '.')) input).1
            = moves ++ [Event.finish Result.DRAW g]
        ∧ moves.length = s * s ∧ countEmpty g = 0
        ∧ ∀ k, k < s * s → ∃ g',
            moves[k]? = some (Event.moved (decide (k % 2 = 0)) Result.NOTHING g' (s * s - 1 - k))
            ∧ countEmpty g' = s * s - 1 - k ∧ (k + 1 = s * s → g' = g) := by
  have hlt : s * s < SIZE_T_RANGE := by
    unfold SIZE_T_RANGE
    nlinarith
  have hsq := square_replicate s
  have hc : s * s = countEmpty (List.replicate s (List.replicate s '.')) :=
    (countEmpty_replicate s s).symm
  have hpos : 0 < s * s := by nlinarith
  unfold game at hnd ⊢
  rw [List.length_replicate, Nat.mod_eq_of_lt hlt] at hnd ⊢
  exact humanLoop_draw _ _ s rfl rfl (show 'x' ≠ '.' by decide) (show 'o' ≠ '.' by decide) fuel _ (s * s) input hsq hc hpos
    hlt hin (coversEmpty_of_coversAll hsq hcov) (by omega) hnd

/-- C6, on the size-3 board with the nine moves of `drawInput3`. -/
theorem human_game_draw_example :
    (game 9
        { move := HumanPlayer.move (HumanPlayer.init { size := 3, lineLen := 3 } FIRST) }
        { move := HumanPlayer.move (HumanPlayer.init { size := 3, lineLen := 3 } SECOND) }
        (List.replicate 3 (List.replicate 3 '.')) drawInput3).2 = .ok ()
      ∧ ∃ moves g,
        (game 9
          { move := HumanPlayer.move (HumanPlayer.init { size := 3, lineLen := 3 } FIRST) }
          { move := HumanPlayer.move (HumanPlayer.init { size := 3, lineLen := 3 } SECOND) }
          (List.replicate 3 (List.replicate 3 '.')) drawInput3).1
            = moves ++ [Event.finish Result.DRAW g]
        ∧ moves.length = 3 * 3 ∧ countEmpty g = 0
        ∧ ∀ k, k < 3 * 3 → ∃ g',
            moves[k]? = some (Event.moved (decide (k % 2 = 0)) Result.NOTHING g' (3 * 3 - 1 - k))
            ∧ countEmpty g' = 3 * 3 - 1 - k ∧ (k + 1 = 3 * 3 → g' = g) :=
  human_game_draw 3 3 9 drawInput3 (by decide) (by decide) (by decide) (by decide) (by decide)
    (by decide)

/-- C7: a coordinate inside the grid whose cell is not Empty is rejected by `validMove`;
the input loop and the whole move then behave as on the same, unmodified grid with the
remaining input. -/
theorem validMove_rejects_occupied (self : Player) (grid : Grid) (i j : Nat)
    (row : List Char) (c : Char) (rest : Input)
    (hrow : grid[i]? = some row) (hcell : row[j]? = some c) (hocc : c ≠ DEFAULT) :
    Player.validMove grid i j = .ok false
      ∧ HumanPlayer.readMove grid ((i, j) :: rest) = HumanPlayer.readMove grid rest
      ∧ HumanPlayer.move self grid ((i, j) :: rest) = HumanPlayer.move self grid rest := by
  have hv : Player.validMove grid i j = .ok false := by
    simp [Player.validMove, hrow, hcell, hocc]
  have hr : HumanPlayer.readMove grid ((i, j) :: rest) = HumanPlayer.readMove grid rest := by
    simp [HumanPlayer.readMove, hv]
  exact ⟨hv, hr, by simp [HumanPlayer.move, hr]⟩

/-- C7, on a board: with `x` at `(0,0)`, the pair `(0,0)` is skipped and the mark goes to
the next pair. -/
theorem validMove_rejects_occupied_example :
    Player.validMove [['x', '.'], ['.', '.']] 0 0 = .ok false
      ∧ HumanPlayer.readMove [['x', '.'], ['.', '.']] [(0, 0), (1, 1)]
          = HumanPlayer.readMove [['x', '.'], ['.', '.']] [(1, 1)]
      ∧ HumanPlayer.move (HumanPlayer.init { size := 2, lineLen := 2 } 'o')
            [['x', '.'], ['.', '.']] [(0, 0), (1, 1)]
          = HumanPlayer.move (HumanPlayer.init { size := 2, lineLen := 2 } 'o')
            [['x', '.'], ['.', '.']] [(1, 1)] :=
  validMove_rejects_occupied _ [['x', '.'], ['.', '.']] 0 0 ['x', '.'] 'x' [(1, 1)]
    (by decide) (by decide) (by decide)

/-- C8 (the code indexes out of range): for a coordinate pair with `i` or `j` outside a
square grid, `validMove` evaluates `grid[i][j]` with an index outside the vector, and so
does the move that reads this pair first. -/
theorem validMove_unchecked_index (self : Player) (grid : Grid) (s i j : Nat) (rest : Input)
    (hsq : Square grid s) (hout : s ≤ i ∨ s ≤ j) :
    Player.validMove grid i j = .error .outOfBounds
      ∧ HumanPlayer.move self grid ((i, j) :: rest) = .error .outOfBounds := by
  have hv : Player.validMove grid i j = .error .outOfBounds := by
    unfold Player.validMove
    cases hrow : grid[i]? with
    | none => rfl
    | some row =>
      have hmem : row ∈ grid := List.getElem?_mem hrow
      have hlen : row.length = s := hsq.2 row hmem
      have hi : i < grid.length := by
        rcases List.getElem?_eq_some.1 hrow with ⟨h, _⟩
        exact h
      have hj : s ≤ j := by
        rcases hout with h | h
        · have := hsq.1
          omega
        · exact h
      have : row[j]? = none := List.getElem?_eq_none (by omega)
      simp [this]
  exact ⟨hv, by simp [HumanPlayer.move, HumanPlayer.readMove, hv]⟩

/-- C8, on the empty size-3 board: the pair `(3, 0)` makes `validMove` index row 3 of a
three-row vector. -/
theorem validMove_unchecked_index_example :
    Player.validMove emptyGrid3 3 0 = .error .outOfBounds
      ∧ HumanPlayer.move (HumanPlayer.init { size := 3, lineLen := 3 } 'x') emptyGrid3
          [(3, 0), (1, 1)] = .error .outOfBounds :=
  validMove_unchecked_index _ emptyGrid3 3 3 0 [(1, 1)] (by decide) (by decide)

/-- C9: a human player initialised with mark `m` whose input loop accepts `(i, j)` on a
square grid of the player's size: `checkWin` returns some `b` on the grid with `m` placed
at `(i, j)`, and `move` returns that grid with `FIRST` (if `m` is `x`) or `SECOND`
(otherwise) when `b` is true and `NOTHING` when `b` is false.  A reported win comes with
a line of `lineLen` cells holding `m` itself. -/
theorem humanMove_result (settings : Settings) (m : Char) (grid : Grid) (s : Nat)
    (input rest : Input) (i j : Nat)
    (hsize : settings.size = s) (hsq : Square grid s)
    (hread : HumanPlayer.readMove grid input = .ok ((i, j), rest)) :
    ∃ b, (HumanPlayer.init settings m).checkWin (setCell grid i j m) = .ok b
      ∧ HumanPlayer.move (HumanPlayer.init settings m) grid input
          = .ok (if b then (if m = 'x' then Result.FIRST else Result.SECOND)
                  else Result.NOTHING, setCell grid i j m, rest)
      ∧ (1 ≤ settings.lineLen → b = true →
          HasLine (setCell grid i j m) m settings.lineLen.toNat) := by
  have hsq' := setCell_square hsq i j m
  obtain ⟨b, hb⟩ := checkWin_total (HumanPlayer.init settings m) (setCell grid i j m) s
    hsize hsq'
  refine ⟨b, hb, ?_, ?_⟩
  · have h := humanMove_of_readMove (HumanPlayer.init settings m) hread hb
    rw [h]
    simp [HumanPlayer.init, FIRST]
  · intro hl hbt
    subst hbt
    exact forEveryLineLoop_sound (HumanPlayer.init settings m) _ hl _ hb

/-- C9, on a size-3 position: `o` skips the occupied `(0,0)` and moves to `(0,2)`. -/
theorem humanMove_result_example :
    ∃ b, (HumanPlayer.init { size := 3, lineLen := 3 } 'o').checkWin
          (setCell secondToWinGrid 0 2 'o') = .ok b
      ∧ HumanPlayer.move (HumanPlayer.init { size := 3, lineLen := 3 } 'o') secondToWinGrid
            [(0, 0), (0, 2), (2, 0)]
          = .ok (if b then (if 'o' = 'x' then Result.FIRST else Result.SECOND)
                  else Result.NOTHING, setCell secondToWinGrid 0 2 'o', [(2, 0)])
      ∧ (1 ≤ ({ size := 3, lineLen := 3 } : Settings).lineLen → b = true →
          HasLine (setCell secondToWinGrid 0 2 'o') 'o'
            ({ size := 3, lineLen := 3 } : Settings).lineLen.toNat) :=
  humanMove_result { size := 3, lineLen := 3 } 'o' secondToWinGrid 3
    [(0, 0), (0, 2), (2, 0)] [(2, 0)] 0 2 (by decide) (by decide) (by decide)

/-- C10: in a game on a grid of size at least 1 in which every call of `move` returns
`NOTHING`, `FIRST` or `SECOND` (human players included), with fuel for `size * size`
iterations: the run ends normally (neither throwing branch of `finish` is taken),
`finish` is called exactly once, and its result is `FIRST`, `SECOND` or `DRAW`. -/
theorem game_finishes_once {σ : Type} (first second : PlayerPtr σ) (grid : Grid) (fuel : Nat)
    (world : σ)
    (hcalls : ∀ x ∈ gameMoveCalls fuel first second grid world,
      callReturnedPlayerResult x = true)
    (hgrid : 1 ≤ grid.length) (hfuel : grid.length * grid.length ≤ fuel) :
    (game fuel first second grid world).2 = .ok ()
      ∧ ∃ r, finishCalls (game fuel first second grid world).1 = [r]
        ∧ (r = Result.FIRST ∨ r = Result.SECOND ∨ r = Result.DRAW) := by
  unfold game
  unfold gameMoveCalls at hcalls
  refine gameLoop_finishes_of_calls first second fuel grid _ world ?_ hcalls
  have hpos : 1 ≤ grid.length * grid.length := Nat.mul_pos hgrid hgrid
  generalize grid.length * grid.length = m at hpos hfuel
  unfold decr SIZE_T_RANGE
  omega

/-- C10, for two human players on the size-3 board: the fifth move completes the top row
of `x`, returns `FIRST`, and `finish` is called once, with `FIRST`. -/
theorem game_finishes_once_example :
    (game 9 { move := HumanPlayer.move (HumanPlayer.init { size := 3, lineLen := 3 } FIRST) }
        { move := HumanPlayer.move (HumanPlayer.init { size := 3, lineLen := 3 } SECOND) }
        emptyGrid3 firstWinsInput3).2 = .ok ()
      ∧ ∃ r, finishCalls (game 9
          { move := HumanPlayer.move (HumanPlayer.init { size := 3, lineLen := 3 } FIRST) }
          { move := HumanPlayer.move (HumanPlayer.init { size := 3, lineLen := 3 } SECOND) }
          emptyGrid3 firstWinsInput3).1 = [r]
        ∧ (r = Result.FIRST ∨ r = Result.SECOND ∨ r = Result.DRAW) :=
  game_finishes_once
    { move := HumanPlayer.move (HumanPlayer.init { size := 3, lineLen := 3 } FIRST) }
    { move := HumanPlayer.move (HumanPlayer.init { size := 3, lineLen := 3 } SECOND) }
    emptyGrid3 9 firstWinsInput3 (by decide) (by decide) (by decide)

/-- C11: a human move on a square grid of the player's size whose input names occupied
cells of the grid and then the Empty cell `(i, j)` returns; it has changed exactly the
cell `(i, j)`, from Empty to the player's mark, every other cell reads as before and the
grid is still square of the same dimension.  Hence in every game between human and
computer players every returned move keeps the marks of the starting grid and of every
earlier move's grid: no cell goes from a mark back to Empty or to the other mark. -/
theorem humanMove_changes_one_cell (self : Player) (grid : Grid) (s : Nat)
    (pre rest : Input) (i j : Nat)
    (hmark : self.mark_ ≠ DEFAULT) (hsize : self.settings_.size = s) (hsq : Square grid s)
    (hpre : ∀ p ∈ pre, ∃ row c, grid[p.1]? = some row ∧ row[p.2]? = some c ∧ c ≠ DEFAULT)
    (hempty : emptyAt grid i j) :
    (∃ r grid', HumanPlayer.move self grid (pre ++ (i, j) :: rest) = .ok (r, grid', rest)
        ∧ cellAt grid i j = some DEFAULT
        ∧ cellAt grid' i j = some self.mark_
        ∧ cellAt grid' i j ≠ cellAt grid i j
        ∧ (∀ a b : Int, ¬ (a = (i : Int) ∧ b = (j : Int)) → cellAt grid' a b = cellAt grid a b)
        ∧ Square grid' s)
      ∧ ∀ (first second : PlayerPtr Input), IsHumanOrComputer first →
          IsHumanOrComputer second →
          ∀ (fuel : Nat) (grid0 : Grid) (input : Input) (k k' : Nat) (b : Bool) (r : Result)
            (g : Grid) (n : Nat) (b' : Bool) (r' : Result) (g' : Grid) (n' : Nat), k ≤ k' →
            (game fuel first second grid0 input).1[k]? = some (Event.moved b r g n) →
            (game fuel first second grid0 input).1[k']? = some (Event.moved b' r' g' n') →
            Keeps grid0 g ∧ Keeps g g' := by
  constructor
  · have hread : HumanPlayer.readMove grid (pre ++ (i, j) :: rest) = .ok ((i, j), rest) :=
      readMove_skips_occupied hempty hpre
    have hsq' := setCell_square hsq i j self.mark_
    obtain ⟨b, hb⟩ := checkWin_total self _ s hsize hsq'
    obtain ⟨row, hrow, hcell⟩ := hempty
    have hj : j < row.length := (List.getElem?_eq_some.1 hcell).1
    have hnew : cellAt (setCell grid i j self.mark_) i j = some self.mark_ := by
      rw [cellAt_setCell hrow hj]; simp
    refine ⟨_, _, humanMove_of_readMove self hread hb,
      cellAt_of_emptyAt ⟨row, hrow, hcell⟩, hnew, ?_, ?_, hsq'⟩
    · rw [hnew, cellAt_of_emptyAt ⟨row, hrow, hcell⟩]
      simpa using hmark
    · intro a b hab
      rw [cellAt_setCell hrow hj]
      simp only [hab, if_false]
  · intro first second hf hs fuel grid0 input k k' b r g n b' r' g' n' hkk hk hk'
    have hchain := gameLoop_keepsChain first second
      (fun _ _ _ _ _ h => keeps_of_isHumanOrComputer hf h)
      (fun _ _ _ _ _ h => keeps_of_isHumanOrComputer hs h) fuel grid0
      ((grid0.length * grid0.length) % SIZE_T_RANGE) input
    obtain ⟨h1, h2⟩ := keepsChain_spec _ _ hchain
    exact ⟨h1 k b r g n hk, h2 k k' b r g n b' r' g' n' hkk hk hk'⟩

/-- C11, on a size-3 position: `o` is given the occupied `(0,0)` and then the Empty
`(0,2)`. -/
theorem humanMove_changes_one_cell_example :
    ∃ r grid', HumanPlayer.move (HumanPlayer.init { size := 3, lineLen := 3 } 'o')
          secondToWinGrid ([(0, 0)] ++ (0, 2) :: [(2, 0)]) = .ok (r, grid', [(2, 0)])
      ∧ cellAt secondToWinGrid (0 : Nat) (2 : Nat) = some DEFAULT
      ∧ cellAt grid' (0 : Nat) (2 : Nat)
          = some (HumanPlayer.init { size := 3, lineLen := 3 } 'o').mark_
      ∧ cellAt grid' (0 : Nat) (2 : Nat) ≠ cellAt secondToWinGrid (0 : Nat) (2 : Nat)
      ∧ (∀ a b : Int, ¬ (a = ((0 : Nat) : Int) ∧ b = ((2 : Nat) : Int)) →
          cellAt grid' a b = cellAt secondToWinGrid a b)
      ∧ Square grid' 3 :=
  (humanMove_changes_one_cell (HumanPlayer.init { size := 3, lineLen := 3 } 'o')
    secondToWinGrid 3 [(0, 0)] [(2, 0)] 0 2 (by decide) (by decide) (by decide)
    (by
      intro p hp
      simp only [List.mem_singleton] at hp
      subst hp
      exact ⟨['o', 'o', '.'], 'o', rfl, rfl, by decide⟩)
    ⟨['o', 'o', '.'], rfl, rfl⟩).1

/-- C12: on a square grid whose dimension `s` is the player's size, with
`1 ≤ lineLen ≤ s`, a run of `lineLen` consecutive cells equal to the player's mark along a
row, along a column or along a down-right diagonal makes `checkWin` return `true`. -/
theorem checkWin_complete (self : Player) (grid : Grid) (s : Nat)
    (hsize : self.settings_.size = s) (hsq : Square grid s)
    (hl : 1 ≤ self.settings_.lineLen) (_hls : self.settings_.lineLen ≤ s)
    (hrun : ∃ i j : Int, RunAt grid self.mark_ i j 0 1 self.settings_.lineLen.toNat
      ∨ RunAt grid self.mark_ i j 1 0 self.settings_.lineLen.toNat
      ∨ RunAt grid self.mark_ i j 1 1 self.settings_.lineLen.toNat) :
    self.checkWin grid = .ok true := by
  obtain ⟨i, j, h | h | h⟩ := hrun
  · exact checkWin_of_row self grid s hsize hsq hl i j h
  · exact checkWin_of_column self grid s hsize hsq hl i j h
  · exact checkWin_of_diagonal self grid s hsize hsq hl i j h

/-- C12, on the three boards of the specification: the top row of the size-3 board, the
main diagonal of the size-3 board, and four `x` on the diagonal of the size-5 board with
line length 4. -/
theorem checkWin_complete_examples :
    (HumanPlayer.init { size := 3, lineLen := 3 } 'x').checkWin rowGrid3 = .ok true
      ∧ (HumanPlayer.init { size := 3, lineLen := 3 } 'x').checkWin diagonalGrid3 = .ok true
      ∧ (HumanPlayer.init { size := 5, lineLen := 4 } 'x').checkWin diagonalGrid5 = .ok true :=
  ⟨checkWin_complete (HumanPlayer.init { size := 3, lineLen := 3 } 'x') rowGrid3 3
      (by decide) (by decide) (by decide) (by decide) ⟨0, 0, Or.inl (by decide)⟩,
   checkWin_complete (HumanPlayer.init { size := 3, lineLen := 3 } 'x') diagonalGrid3 3
      (by decide) (by decide) (by decide) (by decide) ⟨0, 0, Or.inr (Or.inr (by decide))⟩,
   checkWin_complete (HumanPlayer.init { size := 5, lineLen := 4 } 'x') diagonalGrid5 5
      (by decide) (by decide) (by decide) (by decide) ⟨0, 0, Or.inr (Or.inr (by decide))⟩⟩

/-- C13: for every size of at least 1, `makeGrid(size)` returns a grid with exactly `size`
rows of exactly `size` cells each, and every cell is Empty. -/
theorem makeGrid_all_empty (size : Int) (hsize : 1 ≤ size) :
    ∃ grid, makeGrid size = .ok grid
      ∧ grid.length = size.toNat
      ∧ (∀ row ∈ grid, row.length = size.toNat ∧ ∀ c ∈ row, c = DEFAULT)
      ∧ (∀ i j : Int, 0 ≤ i → i < size → 0 ≤ j → j < size → cellAt grid i j = some DEFAULT)
      ∧ countEmpty grid = size.toNat * size.toNat := by
  have hneg : ¬ size < 0 := by omega
  refine ⟨List.replicate size.toNat (List.replicate size.toNat '.'), ?_, ?_, ?_, ?_, ?_⟩
  · simp [makeGrid, hneg]
  · simp
  · intro row hrow
    rw [List.eq_of_mem_replicate hrow]
    refine ⟨by simp, ?_⟩
    intro c hc
    exact List.eq_of_mem_replicate hc
  · intro i j hi0 hi hj0 hj
    have h1 : ¬ (i < 0 ∨ j < 0) := by omega
    have hi' : i.toNat < size.toNat := by omega
    have hj' : j.toNat < size.toNat := by omega
    simp [cellAt, h1, List.getElem?_replicate, hi', hj', DEFAULT]
  · exact countEmpty_replicate _ _

/-- C13, for size 3: `makeGrid(3)` is the empty size-3 board. -/
theorem makeGrid_all_empty_example :
    ∃ grid, makeGrid 3 = .ok grid
      ∧ grid.length = (3 : Int).toNat
      ∧ (∀ row ∈ grid, row.length = (3 : Int).toNat ∧ ∀ c ∈ row, c = DEFAULT)
      ∧ (∀ i j : Int, 0 ≤ i → i < 3 → 0 ≤ j → j < 3 → cellAt grid i j = some DEFAULT)
      ∧ countEmpty grid = (3 : Int).toNat * (3 : Int).toNat :=
  makeGrid_all_empty 3 (by decide)

/-- C14 (as amended): for every negative size `makeGrid(size)` fails with the length error
of the vector constructor and returns no grid. -/
theorem makeGrid_negative_fails (size : Int) (hsize : size < 0) :
    makeGrid size = .error .lengthError := by
  simp [makeGrid, hsize]

/-- C14 (as amended), for size `-1`. -/
theorem makeGrid_negative_fails_example : makeGrid (-1) = .error .lengthError :=
  makeGrid_negative_fails (-1) (by decide)

/-- C14 (as stated, refuted): `makeGrid(0)` does not fail; it returns the grid without
rows. -/
theorem makeGrid_zero_returns : makeGrid 0 = .ok [] := by
  decide

/-- C15: on a square grid whose dimension `s ≥ 1` is the player's size, with line length
at least 2, `checkWin` returns, and it returns `true` exactly when the grid holds `lineLen`
consecutive cells equal to the mark along a row, a column, a down-right diagonal, or a
down-left diagonal whose cells satisfy `i + j ≤ s - 1`.  Every down-left scan that starts
in the left column returns `false`. -/
theorem checkWin_characterisation (self : Player) (grid : Grid) (s : Nat) (_hs : 1 ≤ s)
    (hsize : self.settings_.size = s) (hsq : Square grid s)
    (hl : 2 ≤ self.settings_.lineLen) :
    (self.checkWin grid = .ok true
        ↔ HasScannedLine grid self.mark_ self.settings_.lineLen.toNat s)
      ∧ (self.checkWin grid = .ok false
        ↔ ¬ HasScannedLine grid self.mark_ self.settings_.lineLen.toNat s)
      ∧ ∀ pos : Int, self.checkWinLine grid { i := pos, j := 0 } 1 (-1) = .ok false := by
  have hl1 : 1 ≤ self.settings_.lineLen := by omega
  have hiff : self.checkWin grid = .ok true
      ↔ HasScannedLine grid self.mark_ self.settings_.lineLen.toNat s := by
    constructor
    · intro h
      unfold Player.checkWin Player.forEveryLine at h
      obtain ⟨pos, hp0, hp1, hbody⟩ := forEveryLineLoop_true self grid _ h
      rw [forEveryLineBody_eq] at hbody
      have hx := firstTrue_true hbody
      simp only [List.mem_cons, List.mem_singleton, List.not_mem_nil, or_false] at hx
      rcases hx with hx | hx | hx | hx | hx | hx
      all_goals
        obtain ⟨t, ht, hrun⟩ := checkWinLine_sound_on_path self grid hl1 _ _ _ hx.symm
      · exact ⟨_, _, Or.inl hrun⟩
      · exact ⟨_, _, Or.inr (Or.inr (Or.inl hrun))⟩
      · exfalso
        have h1 := okBorders_of_cellAt self hsize hsq (hrun 1 (by omega))
        simp only [Player.okBorders, Bool.and_eq_true, decide_eq_true_eq] at h1
        omega
      · exact ⟨_, _, Or.inr (Or.inl hrun)⟩
      · exact ⟨_, _, Or.inr (Or.inr (Or.inl hrun))⟩
      · refine ⟨_, _, Or.inr (Or.inr (Or.inr ⟨hrun, ?_⟩))⟩
        simp only []
        omega
    · rintro ⟨i, j, h | h | h | ⟨h, hsum⟩⟩
      · exact checkWin_of_row self grid s hsize hsq hl1 i j h
      · exact checkWin_of_column self grid s hsize hsq hl1 i j h
      · exact checkWin_of_diagonal self grid s hsize hsq hl1 i j h
      · exact checkWin_of_upper_antidiagonal self grid s hsize hsq hl1 i j hsum h
  refine ⟨hiff, ?_, checkWinLine_left_column_antidiagonal self grid s hsize hsq hl⟩
  obtain ⟨b, hb⟩ := checkWin_total self grid s hsize hsq
  constructor
  · intro hf hline
    rw [hiff.2 hline] at hf
    simp at hf
  · intro hno
    cases b with
    | true => exact absurd (hiff.1 hb) hno
    | false => exact hb

/-- C15, on two size-4 boards with line length 3: three `x` on the down-left diagonal
`(0,2), (1,1), (2,0)` are found, and every down-left scan from the left column of the
board `lowerAntiDiagonalGrid` returns `false`. -/
theorem checkWin_characterisation_example :
    ((HumanPlayer.init { size := 4, lineLen := 3 } 'x').checkWin upperAntiDiagonalGrid
          = .ok true
        ↔ HasScannedLine upperAntiDiagonalGrid 'x' 3 4)
      ∧ (∀ pos : Int, (HumanPlayer.init { size := 4, lineLen := 3 } 'x').checkWinLine
          lowerAntiDiagonalGrid { i := pos, j := 0 } 1 (-1) = .ok false) :=
  ⟨(checkWin_characterisation (HumanPlayer.init { size := 4, lineLen := 3 } 'x')
      upperAntiDiagonalGrid 4 (by decide) (by decide) (by decide) (by decide)).1,
   (checkWin_characterisation (HumanPlayer.init { size := 4, lineLen := 3 } 'x')
      lowerAntiDiagonalGrid 4 (by decide) (by decide) (by decide) (by decide)).2.2⟩

/-- C16: in a game on a grid of size `n ≥ 1` (with `n * n` cells, so `n * n < 2^64`) in
which every call of `move` returns (human players included), with fuel for `n * n`
iterations, the loop ends in a call of `finish` after at most `n * n` calls of `move`, and
after the `k`-th move (from 0) the counter is exactly `n * n - (k + 1)`: it never wraps.
On a grid of size 0 the first decrement takes the counter from 0 to `2^64 - 1`. -/
theorem game_terminates {σ : Type} (first second : PlayerPtr σ) (grid : Grid) (fuel : Nat)
    (world : σ)
    (hcalls : ∀ x ∈ gameMoveCalls fuel first second grid world, callReturned x = true)
    (hgrid : 1 ≤ grid.length) (hrep : grid.length * grid.length < SIZE_T_RANGE)
    (hfuel : grid.length * grid.length ≤ fuel) :
    (∃ moves r g,
        (game fuel first second grid world).1 = moves ++ [Event.finish r g]
        ∧ (game fuel first second grid world).2 = (finish r g).2
        ∧ (gameMoveCalls fuel first second grid world).length = moves.length
        ∧ moves.length ≤ grid.length * grid.length
        ∧ ∀ k : Nat, k < moves.length → ∃ b r' g' n,
            moves[k]? = some (Event.moved b r' g' n)
              ∧ n + (k + 1) = grid.length * grid.length)
      ∧ decr (([] : Grid).length * ([] : Grid).length % SIZE_T_RANGE) = SIZE_T_RANGE - 1
      ∧ ∀ (fuel' : Nat) (world' : σ) (r : Result) (g : Grid) (w : σ),
          first.move [] world' = .ok (r, g, w) →
          (game (fuel' + 1) first second [] world').1.head?
            = some (Event.moved true r g (SIZE_T_RANGE - 1)) := by
  refine ⟨?_, by decide, ?_⟩
  · unfold game
    unfold gameMoveCalls at hcalls ⊢
    rw [Nat.mod_eq_of_lt hrep] at hcalls ⊢
    exact gameLoop_bounded_of_calls first second fuel grid _ world
      (Nat.mul_pos hgrid hgrid) hrep (by omega) hcalls
  · intro fuel' world' r1 g1 w1 hm1
    have hd : decr 0 = SIZE_T_RANGE - 1 := by decide
    unfold game
    simp only [List.length_nil, Nat.mul_zero, Nat.zero_mod]
    by_cases h1 : r1 = Result.NOTHING
    · subst h1
      have hz : decr 0 ≠ 0 := by decide
      cases hm2 : second.move g1 w1 with
      | error e =>
        rw [gameLoop_second_fault _ _ fuel' [] 0 world' g1 w1 e hm1 hz hm2, hd]
        rfl
      | ok res2 =>
        obtain ⟨r2, g2, w2⟩ := res2
        have hz2 : decr (decr 0) ≠ 0 := by decide
        by_cases h2 : r2 = Result.NOTHING
        · subst h2
          rw [gameLoop_second_continue _ _ fuel' [] 0 world' g1 w1 g2 w2 hm1 hz hm2 hz2, hd]
          rfl
        · rw [gameLoop_second_decisive _ _ fuel' [] 0 world' g1 w1 r2 g2 w2 hm1 hz hm2 hz2
            h2, hd]
          rfl
    · rw [gameLoop_first_decisive _ _ fuel' [] 0 world' r1 g1 w1 hm1 h1, hd]
      rfl

/-- C16, for two human players on the size-3 board with the nine moves of
`drawInput3`. -/
theorem game_terminates_example :
    ∃ moves r g,
      (game 9 { move := HumanPlayer.move (HumanPlayer.init { size := 3, lineLen := 3 } FIRST) }
          { move := HumanPlayer.move (HumanPlayer.init { size := 3, lineLen := 3 } SECOND) }
          emptyGrid3 drawInput3).1 = moves ++ [Event.finish r g]
      ∧ (game 9 { move := HumanPlayer.move (HumanPlayer.init { size := 3, lineLen := 3 } FIRST) }
          { move := HumanPlayer.move (HumanPlayer.init { size := 3, lineLen := 3 } SECOND) }
          emptyGrid3 drawInput3).2 = (finish r g).2
      ∧ (gameMoveCalls 9
          { move := HumanPlayer.move (HumanPlayer.init { size := 3, lineLen := 3 } FIRST) }
          { move := HumanPlayer.move (HumanPlayer.init { size := 3, lineLen := 3 } SECOND) }
          emptyGrid3 drawInput3).length = moves.length
      ∧ moves.length ≤ emptyGrid3.length * emptyGrid3.length
      ∧ ∀ k : Nat, k < moves.length → ∃ b r' g' n,
          moves[k]? = some (Event.moved b r' g' n)
            ∧ n + (k + 1) = emptyGrid3.length * emptyGrid3.length :=
  (game_terminates
    { move := HumanPlayer.move (HumanPlayer.init { size := 3, lineLen := 3 } FIRST) }
    { move := HumanPlayer.move (HumanPlayer.init { size := 3, lineLen := 3 } SECOND) }
    emptyGrid3 9 drawInput3 (by decide) (by decide) (by decide) (by decide)).1

/-- C17: in a game between two human players that starts on the all-Empty grid, the
`k`-th returned move (from 0) is by the first player exactly when `k` is even, and the
grid after it holds `(k + 2) / 2` cells `x` and `(k + 1) / 2` cells `o`: the number of
`x` is the number of `o` or one more.  The starting grid holds neither. -/
theorem human_game_alternates (settings : Settings) (s fuel : Nat) (input : Input) (k : Nat)
    (b : Bool) (r : Result) (g : Grid) (n : Nat)
    (h : (game fuel { move := HumanPlayer.move (HumanPlayer.init settings FIRST) }
            { move := HumanPlayer.move (HumanPlayer.init settings SECOND) }
            (List.replicate s (List.replicate s '.')) input).1[k]?
          = some (Event.moved b r g n)) :
    b = decide (k % 2 = 0)
      ∧ countMark 'x' g = (k + 2) / 2 ∧ countMark 'o' g = (k + 1) / 2
      ∧ (countMark 'x' g = countMark 'o' g ∨ countMark 'x' g = countMark 'o' g + 1)
      ∧ countMark 'x' (List.replicate s (List.replicate s '.')) = 0
      ∧ countMark 'o' (List.replicate s (List.replicate s '.')) = 0 := by
  have hx0 := countMark_replicate 'x' (by decide) s s
  have ho0 := countMark_replicate 'o' (by decide) s s
  unfold game at h
  obtain ⟨hb, hx, ho⟩ := humanLoop_alternates (HumanPlayer.init settings FIRST)
    (HumanPlayer.init settings SECOND) (show 'x' ≠ '.' by decide) (show 'o' ≠ '.' by decide)
    (show 'x' ≠ 'o' by decide) fuel _ _ input k b r g n h
  have hx' : countMark 'x' g = (k + 2) / 2 := by
    have : countMark 'x' g = countMark 'x' (List.replicate s (List.replicate s '.'))
        + (k + 2) / 2 := hx
    omega
  have ho' : countMark 'o' g = (k + 1) / 2 := by
    have : countMark 'o' g = countMark 'o' (List.replicate s (List.replicate s '.'))
        + (k + 1) / 2 := ho
    omega
  exact ⟨hb, hx', ho', by omega, hx0, ho0⟩

/-- C17, in the size-3 game of `drawInput3`: the move number 4 (the fifth) is by the first
player and leaves three `x` and two `o`. -/
theorem human_game_alternates_example :
    true = decide (4 % 2 = 0)
      ∧ countMark 'x' fiveMovesGrid3 = (4 + 2) / 2 ∧ countMark 'o' fiveMovesGrid3 = (4 + 1) / 2
      ∧ (countMark 'x' fiveMovesGrid3 = countMark 'o' fiveMovesGrid3
        ∨ countMark 'x' fiveMovesGrid3 = countMark 'o' fiveMovesGrid3 + 1)
      ∧ countMark 'x' (List.replicate 3 (List.replicate 3 '.')) = 0
      ∧ countMark 'o' (List.replicate 3 (List.replicate 3 '.')) = 0 :=
  human_game_alternates { size := 3, lineLen := 3 } 3 9 drawInput3 4 true Result.NOTHING
    fiveMovesGrid3 4 (by decide)

/-- C18: every move of a `ComputerPlayer` returns `NOTHING` and the unchanged grid, and the
game between two of them on the all-Empty grid of dimension `s ≥ 1` (with `s * s < 2^64`
cells) makes exactly `s * s` moves, alternating from the first player, and then calls
`finish` with `DRAW` on the grid, which is still entirely Empty. -/
theorem computer_game_draw {σ : Type} (cp1 cp2 : ComputerPlayer) (s fuel : Nat) (world : σ)
    (hs : 1 ≤ s) (hrep : s * s < SIZE_T_RANGE) (hfuel : s * s ≤ fuel) :
    (∀ (cp : ComputerPlayer) (g : Grid) (w : σ),
        ComputerPlayer.move cp g w = .ok (Result.NOTHING, g, w))
      ∧ ∃ moves,
        game fuel { move := ComputerPlayer.move cp1 } { move := ComputerPlayer.move cp2 }
            (List.replicate s (List.replicate s '.')) world
          = (moves ++ [Event.finish Result.DRAW (List.replicate s (List.replicate s '.'))],
              .ok ())
        ∧ moves.length = s * s
        ∧ (∀ k : Nat, k < s * s →
            moves[k]? = some (Event.moved (decide (k % 2 = 0)) Result.NOTHING
              (List.replicate s (List.replicate s '.')) (s * s - 1 - k)))
        ∧ countEmpty (List.replicate s (List.replicate s '.')) = s * s := by
  refine ⟨fun _ _ _ => rfl, ?_⟩
  unfold game
  rw [List.length_replicate, Nat.mod_eq_of_lt hrep]
  obtain ⟨moves, hrun, hlen, hmoves⟩ := computerLoop_draw cp1 cp2 fuel
    (List.replicate s (List.replicate s '.')) (s * s) world (Nat.mul_pos hs hs) hrep
    (by omega)
  exact ⟨moves, hrun, hlen, hmoves, countEmpty_replicate s s⟩

/-- C18, for size 3. -/
theorem computer_game_draw_example :
    ∃ moves,
      game 9 { move := ComputerPlayer.move computerX } { move := ComputerPlayer.move computerO }
          (List.replicate 3 (List.replicate 3 '.')) ()
        = (moves ++ [Event.finish Result.DRAW (List.replicate 3 (List.replicate 3 '.'))],
            .ok ())
      ∧ moves.length = 3 * 3
      ∧ (∀ k : Nat, k < 3 * 3 →
          moves[k]? = some (Event.moved (decide (k % 2 = 0)) Result.NOTHING
            (List.replicate 3 (List.replicate 3 '.')) (3 * 3 - 1 - k)))
      ∧ countEmpty (List.replicate 3 (List.replicate 3 '.')) = 3 * 3 :=
  (computer_game_draw computerX computerO 3 9 () (by decide) (by decide) (by decide)).2

/-- C19: win detection is monotone in the line length.  For every grid, mark and size and
all line lengths `1 ≤ l' ≤ l`: if `checkWin` returns `true` with `lineLen = l`, it returns
`true` with `lineLen = l'`. -/
theorem checkWin_mono_lineLen (mark : Char) (isFirst : Bool) (size l l' : Int) (grid : Grid)
    (_hl' : 1 ≤ l') (hle : l' ≤ l)
    (h : Player.checkWin
      { mark_ := mark, isFirst_ := isFirst, settings_ := { size := size, lineLen := l } }
      grid = .ok true) :
    Player.checkWin
      { mark_ := mark, isFirst_ := isFirst, settings_ := { size := size, lineLen := l' } }
      grid = .ok true := by
  unfold Player.checkWin Player.forEveryLine at h ⊢
  obtain ⟨b', hb', hb⟩ := forEveryLineLoop_mono
    { mark_ := mark, isFirst_ := isFirst, settings_ := { size := size, lineLen := l } }
    { mark_ := mark, isFirst_ := isFirst, settings_ := { size := size, lineLen := l' } }
    grid rfl rfl hle _ true h
  rw [hb', hb rfl]

/-- C19, on the size-5 board of the specification: the four `x` that win with line length
4 also win with line length 3. -/
theorem checkWin_mono_lineLen_example :
    Player.checkWin
      { mark_ := 'x', isFirst_ := true, settings_ := { size := 5, lineLen := 3 } }
      diagonalGrid5 = .ok true :=
  checkWin_mono_lineLen 'x' true 5 4 3 diagonalGrid5 (by decide) (by decide) (by decide)

/-- C20: for a player whose `size` is the dimension `s` of a square grid, `checkWin`
returns without indexing outside the grid.  In every pass `0 ≤ pos < s` each of the six
scans returns, reads at most `s` cells, and every cell it reads lies inside the grid. -/
theorem checkWin_reads_inside_grid (self : Player) (grid : Grid) (s : Nat)
    (hsize : self.settings_.size = s) (hsq : Square grid s) :
    (∃ b, self.checkWin grid = .ok b)
      ∧ ∀ pos : Int, 0 ≤ pos → pos < s →
        self.forEveryLineBody grid pos
            = firstTrue ((scansAt pos).map
                fun scan => self.checkWinLine grid scan.1 scan.2.1 scan.2.2)
          ∧ ∀ scan ∈ scansAt pos,
              (∃ b, self.checkWinLine grid scan.1 scan.2.1 scan.2.2 = .ok b)
              ∧ (self.checkWinLineReads grid scan.2.1 scan.2.2
                    (self.settings_.size.toNat + 1) scan.1 0).length ≤ s
              ∧ ∀ c ∈ self.checkWinLineReads grid scan.2.1 scan.2.2
                    (self.settings_.size.toNat + 1) scan.1 0,
                  0 ≤ c.i ∧ c.i < s ∧ 0 ≤ c.j ∧ c.j < s
                    ∧ (cellAt grid c.i c.j).isSome = true := by
  refine ⟨checkWin_total self grid s hsize hsq, ?_⟩
  intro pos hp0 hp1
  refine ⟨forEveryLineBody_eq self grid pos, ?_⟩
  intro scan hscan
  have hdir : scan.2.1 = 1 ∧ 0 ≤ scan.1.i ∨ scan.2.2 = 1 ∧ 0 ≤ scan.1.j := by
    simp only [scansAt, List.mem_cons, List.mem_singleton, List.not_mem_nil, or_false]
      at hscan
    rcases hscan with rfl | rfl | rfl | rfl | rfl | rfl <;> simp [hp0]
  refine ⟨checkWinLine_total self grid s hsize hsq _ _ _ hdir, ?_, ?_⟩
  · have hlen := checkWinLineReads_length self grid scan.2.1 scan.2.2
      (self.settings_.size.toNat + 1) scan.1 0
    rcases hdir with ⟨h1, h2⟩ | ⟨h1, h2⟩
    · have := hlen.1 h1; omega
    · have := hlen.2 h1; omega
  · intro c hc
    have hb := checkWinLineReads_okBorders self grid _ _ _ _ _ c hc
    simp only [Player.okBorders, Bool.and_eq_true, decide_eq_true_eq] at hb
    obtain ⟨v, hv⟩ := cellAt_of_square hsq (i := c.i) (j := c.j)
      (by omega) (by omega) (by omega) (by omega)
    refine ⟨by omega, by omega, by omega, by omega, ?_⟩
    rw [hv]; rfl

/-- C20, on the size-5 board of the specification, for the pass `pos = 1`. -/
theorem checkWin_reads_inside_grid_example :
    (∃ b, (HumanPlayer.init { size := 5, lineLen := 4 } 'x').checkWin diagonalGrid5 = .ok b)
      ∧ ∀ scan ∈ scansAt 1,
          (∃ b, (HumanPlayer.init { size := 5, lineLen := 4 } 'x').checkWinLine diagonalGrid5
              scan.1 scan.2.1 scan.2.2 = .ok b)
          ∧ ((HumanPlayer.init { size := 5, lineLen := 4 } 'x').checkWinLineReads
                diagonalGrid5 scan.2.1 scan.2.2
                ((HumanPlayer.init { size := 5, lineLen := 4 } 'x').settings_.size.toNat + 1)
                scan.1 0).length ≤ 5
          ∧ ∀ c ∈ (HumanPlayer.init { size := 5, lineLen := 4 } 'x').checkWinLineReads
                diagonalGrid5 scan.2.1 scan.2.2
                ((HumanPlayer.init { size := 5, lineLen := 4 } 'x').settings_.size.toNat + 1)
                scan.1 0,
              0 ≤ c.i ∧ c.i < (5 : Nat) ∧ 0 ≤ c.j ∧ c.j < (5 : Nat)
                ∧ (cellAt diagonalGrid5 c.i c.j).isSome = true :=
  ⟨(checkWin_reads_inside_grid (HumanPlayer.init { size := 5, lineLen := 4 } 'x')
      diagonalGrid5 5 (by decide) (by decide)).1,
   ((checkWin_reads_inside_grid (HumanPlayer.init { size := 5, lineLen := 4 } 'x')
      diagonalGrid5 5 (by decide) (by decide)).2 1 (by decide) (by decide)).2⟩

end Gomoku
